import Mathlib

/-!
Verification of the WikipediaSCOTUS repository core: the infobox template
scanner and identifier extractor of caseCollector.py, and the record
normalizer and matching engine of extract.py.

The Python string/regex primitives are embedded as executable functions on
List Char.  Character classes are modelled at the ASCII level (the data the
program processes is ASCII wiki markup and CSV fields): Python \s is the
ASCII whitespace set, \w is [A-Za-z0-9_], \d is [0-9].
-/

/-- ASCII whitespace, the characters Python str.strip / str.split / \s treat
as whitespace. -/
def pyIsSpace (c : Char) : Bool :=
  c == ' ' || c == '\t' || c == '\n' || c == '\r' || c == '\x0b' || c == '\x0c'

/-- Python regex \w (word character), ASCII: letters, digits, underscore. -/
def isWordChar (c : Char) : Bool :=
  c.isAlpha || c.isDigit || c == '_'

/-- Split a list at the longest prefix satisfying p: returns (prefix, rest).
Embeds a greedy regex run such as \s* or \d+. -/
def takeWhileSplit (p : Char → Bool) : List Char → List Char × List Char
  | [] => ([], [])
  | c :: rest =>
    if p c then
      let s := takeWhileSplit p rest
      (c :: s.1, s.2)
    else ([], c :: rest)

/-- Consume a maximal whitespace run (regex \s*), returning the rest. -/
def wsSkip (cs : List Char) : List Char :=
  (takeWhileSplit pyIsSpace cs).2

/-- Consume an exact (case-sensitive) literal; some rest on success. -/
def litConsume : List Char → List Char → Option (List Char)
  | [], cs => some cs
  | _ :: _, [] => none
  | l :: ls, c :: cs => if c = l then litConsume ls cs else none

/-- Python str.strip(): drop ASCII whitespace from both ends. -/
def pyStrip (cs : List Char) : List Char :=
  ((cs.dropWhile pyIsSpace).reverse.dropWhile pyIsSpace).reverse

/-- Python str.replace(pat, repl): replace every non-overlapping occurrence,
scanning left to right.  Fuel-based so that the kernel can evaluate it; a
fuel of cs.length always suffices (each step consumes at least one char).
The source never calls replace with an empty pattern. -/
def pyReplaceAux (pat repl : List Char) : Nat → List Char → List Char
  | _, [] => []
  | 0, cs => cs
  | fuel + 1, c :: rest =>
    if pat ≠ [] ∧ pat.isPrefixOf (c :: rest) then
      repl ++ pyReplaceAux pat repl fuel (List.drop (pat.length - 1) rest)
    else
      c :: pyReplaceAux pat repl fuel rest

/-- Python str.replace entry point. -/
def pyReplaceStr (cs pat repl : List Char) : List Char :=
  pyReplaceAux pat repl cs.length cs

/-- Substring occurrence test (Python `pat in s`). -/
def containsSub (pat : List Char) : List Char → Bool
  | [] => pat.isEmpty
  | c :: rest => pat.isPrefixOf (c :: rest) || containsSub pat rest

/-- Helper of pySplit: acc is the current word, reversed. -/
def pySplitAux : List Char → List Char → List (List Char)
  | acc, [] => if acc = [] then [] else [acc.reverse]
  | acc, c :: rest =>
    if pyIsSpace c then
      if acc = [] then pySplitAux [] rest else acc.reverse :: pySplitAux [] rest
    else pySplitAux (c :: acc) rest

/-- Python str.split() with no argument: split on whitespace runs, dropping
empty pieces. -/
def pySplit (cs : List Char) : List (List Char) :=
  pySplitAux [] cs

/-- Python " ".join(words). -/
def pyJoin : List (List Char) → List Char
  | [] => []
  | [w] => w
  | w :: ws => w ++ ' ' :: pyJoin ws

/-- Python s.split(sep) for a one-character separator: keeps empty pieces.
Returns (first piece, later pieces) so the result is never the empty list. -/
def pySplitChar (sep : Char) : List Char → List Char × List (List Char)
  | [] => ([], [])
  | c :: rest =>
    let s := pySplitChar sep rest
    if c = sep then ([], s.1 :: s.2) else (c :: s.1, s.2)

/-- Value of a list of decimal digit characters (Python int()). -/
def digitsToNat (ds : List Char) : Nat :=
  ds.foldl (fun n c => n * 10 + (c.toNat - 48)) 0

/-! ## extract.py: record normalizer -/

/-- Replacement chain of norm_us before the whitespace collapse. -/
def normUsReplaced (cs0 : List Char) : List Char :=
  let cs := pyStrip cs0
  let cs := pyReplaceStr cs "U. S.".data "U.S.".data
  let cs := pyReplaceStr cs "U. S".data "U.S".data
  let cs := pyReplaceStr cs "U. S".data "U.S".data
  let cs := pyReplaceStr cs "–".data "-".data
  pyReplaceStr cs "—".data "-".data

/-- norm_us of extract.py: strip, unify "U. S." / "U. S" to the unspaced
abbreviation, unify dashes to hyphen, collapse whitespace runs. -/
def norm_us (s : String) : String :=
  String.mk (pyJoin (pySplit (normUsReplaced s.data)))

/-- norm_docket of extract.py: strip, unify dashes, then remove every
occurrence of "No. " and then of "No." (str.replace semantics). -/
def norm_docket (s : String) : String :=
  let cs := pyStrip s.data
  let cs := pyReplaceStr cs "–".data "-".data
  let cs := pyReplaceStr cs "—".data "-".data
  let cs := pyReplaceStr cs "No. ".data "".data
  let cs := pyReplaceStr cs "No.".data "".data
  String.mk cs

/-- Dash/underscore characters of PLACEHOLDER_US_RE's bracket class. -/
def isPlaceholderPad (c : Char) : Bool :=
  c == '_' || c == '-' || c == '–' || c == '—'

/-- PLACEHOLDER_US_RE.match: anchored match of
^\s* \d+ \s* U .? S .? (\s* [_-–—]*)? \s* $ (case-insensitive on U, S).
Each greedy piece is followed by a character it cannot consume, so maximal
munch is exact; $ also matches before one final newline, which the trailing
\s* consumption subsumes. -/
def placeholderMatch (cs : List Char) : Bool :=
  let r := wsSkip cs
  let s1 := takeWhileSplit Char.isDigit r
  if s1.1 = [] then false
  else
    match wsSkip s1.2 with
    | u :: r3 =>
      if u = 'U' ∨ u = 'u' then
        let r4 := match r3 with | '.' :: t => t | _ => r3
        match r4 with
        | sc :: r5 =>
          if sc = 'S' ∨ sc = 's' then
            let r6 := match r5 with | '.' :: t => t | _ => r5
            let r7 := wsSkip r6
            let r8 := (takeWhileSplit isPlaceholderPad r7).2
            (wsSkip r8).isEmpty
          else false
        | [] => false
      else false
    | [] => false

/-- is_placeholder_us of extract.py: blank or a volume-only placeholder. -/
def is_placeholder_us (us_norm : String) : Bool :=
  if us_norm = "" then true else placeholderMatch us_norm.data

/-- Generic regex-search scaffold: try a matcher at every position, leftmost
success wins. -/
def searchScan (f : List Char → Option α) : List Char → Option α
  | [] => f []
  | cs@(_ :: rest) =>
    match f cs with
    | some x => some x
    | none => searchScan f rest

/-- Matcher of re.search(r"\((\d{4})\)\s*$", title) at one position: a
four-digit year in parentheses followed only by whitespace to end of text. -/
def titleYearAt : List Char → Option Nat
  | '(' :: d1 :: d2 :: d3 :: d4 :: ')' :: rest =>
    if d1.isDigit ∧ d2.isDigit ∧ d3.isDigit ∧ d4.isDigit ∧ wsSkip rest = [] then
      some (digitsToNat [d1, d2, d3, d4])
    else none
  | _ => none

/-- Matcher of re.search(r"(1[89]\d{2}|20\d{2})", us_raw) at one position. -/
def citeYearAt : List Char → Option Nat
  | c1 :: c2 :: c3 :: c4 :: _ =>
    if c1 = '1' ∧ (c2 = '8' ∨ c2 = '9') ∧ c3.isDigit ∧ c4.isDigit then
      some (digitsToNat [c1, c2, c3, c4])
    else if c1 = '2' ∧ c2 = '0' ∧ c3.isDigit ∧ c4.isDigit then
      some (digitsToNat [c1, c2, c3, c4])
    else none
  | _ => none

/-- A row of wiki_infobox_cases.csv as the matcher reads it.  The four
pageview columns are pass-through data never consulted by the matching
logic and are omitted from the model. -/
structure WikiRow where
  title : String
  usCite : String
  docket : String
deriving DecidableEq, Repr

/-- A row of the SCDB external dataset, restricted to the fields the
matcher reads. -/
structure ScdbRow where
  usCite : String
  docket : String
  dateDecision : String
  term : String
deriving DecidableEq, Repr

/-- get_wiki_year of extract.py: trailing "(YYYY)" in the title, else the
first 1800s/1900s/2000s four-digit year in the raw usCite string. -/
def get_wiki_year (w : WikiRow) : Option Nat :=
  match searchScan titleYearAt w.title.data with
  | some y => some y
  | none => searchScan citeYearAt w.usCite.data

/-- compute_decision_year of extract.py: the last slash-separated piece of
dateDecision when it is four digits, else the term field when numeric. -/
def compute_decision_year (dateDecision term : String) : Option Nat :=
  let dd := pyStrip dateDecision.data
  let fromDD : Option Nat :=
    if dd ≠ [] then
      let s := pySplitChar '/' dd
      let y := (s.1 :: s.2).getLastD []
      if y.length = 4 ∧ y.all Char.isDigit then some (digitsToNat y) else none
    else none
  match fromDD with
  | some y => some y
  | none =>
    let t := pyStrip term.data
    if t ≠ [] ∧ t.all Char.isDigit then some (digitsToNat t) else none

/-- Decision year of an SCDB row (the precomputed decisionYear column). -/
def decisionYear (r : ScdbRow) : Option Nat :=
  compute_decision_year r.dateDecision r.term

/-- One iteration of the matching loop of extract.py main(): citation-first,
then docket with year disambiguation.  The groupby indexes are modelled by
filtering the scdb list (same bucket membership, same first-seen order);
an index bucket exists exactly when the key is nonempty and some row has it. -/
def matchOne (scdb : List ScdbRow) (w : WikiRow) : Option ScdbRow :=
  let us_eff := if is_placeholder_us (norm_us w.usCite) then "" else norm_us w.usCite
  let usBucket := scdb.filter (fun r => norm_us r.usCite == us_eff)
  let dkNorm := norm_docket w.docket
  let dkBucket := scdb.filter (fun r => norm_docket r.docket == dkNorm)
  if us_eff ≠ "" ∧ usBucket ≠ [] then
    usBucket.head?
  else if dkNorm ≠ "" ∧ dkBucket ≠ [] then
    if dkBucket.length = 1 then dkBucket.head?
    else
      match get_wiki_year w with
      | some y =>
        let candYear := dkBucket.filter (fun r => decisionYear r == some y)
        if candYear.length = 1 then candYear.head?
        else if 1 < candYear.length then candYear.head?
        else dkBucket.head?
      | none => dkBucket.head?
  else none

/-- The matching loop over all wiki rows, producing (matched, unmatched) in
iteration order; a matched pair carries the wiki row and the chosen SCDB row
(the merged output row is their fields side by side). -/
def runMatch (scdb : List ScdbRow) : List WikiRow → List (WikiRow × ScdbRow) × List WikiRow
  | [] => ([], [])
  | w :: rest =>
    let s := runMatch scdb rest
    match matchOne scdb w with
    | some e => ((w, e) :: s.1, s.2)
    | none => (s.1, w :: s.2)

/-- C1: every source record lands in exactly one output list. -/
theorem C1_count_conservation :
    ∀ (wiki : List WikiRow) (scdb : List ScdbRow),
      (runMatch scdb wiki).1.length + (runMatch scdb wiki).2.length = wiki.length ∧
      List.Perm ((runMatch scdb wiki).1.map Prod.fst ++ (runMatch scdb wiki).2) wiki := by
  intro wiki scdb
  induction wiki with
  | nil => exact ⟨rfl, List.Perm.refl _⟩
  | cons w rest ih =>
    obtain ⟨hlen, hperm⟩ := ih
    cases h : matchOne scdb w with
    | some e =>
      constructor
      · simp only [runMatch, h, List.length_cons]
        omega
      · simp only [runMatch, h, List.map_cons, List.cons_append]
        exact hperm.cons w
    | none =>
      constructor
      · simp only [runMatch, h, List.length_cons]
        omega
      · simp only [runMatch, h]
        exact (List.perm_middle).trans (hperm.cons w)

/-! ## caseCollector.py: template scanner -/

/-- Case-insensitive literal consumption (regex under re.I, ASCII). -/
def litConsumeCI : List Char → List Char → Option (List Char)
  | [], cs => some cs
  | _ :: _, [] => none
  | l :: ls, c :: cs => if c.toLower = l.toLower then litConsumeCI ls cs else none

/-- Match a sequence of literal words separated by \s+ (case-insensitive).
Each \s+ run is followed by a letter, so maximal munch is exact. -/
def wordsCI : List (List Char) → List Char → Bool
  | [], _ => true
  | [w], cs => (litConsumeCI w cs).isSome
  | w :: w2 :: ws, cs =>
    match litConsumeCI w cs with
    | none => false
    | some r =>
      let s := takeWhileSplit pyIsSpace r
      if s.1 = [] then false else wordsCI (w2 :: ws) s.2

/-- INFOBOX_START matched at this position: "{{", \s*, then one of the three
template name alternatives (case-insensitive). -/
def infoboxStartHere : List Char → Bool
  | '{' :: '{' :: r =>
    let r1 := wsSkip r
    wordsCI ["Infobox".data, "US".data, "Supreme".data, "Court".data, "case".data] r1 ||
      wordsCI ["Infobox".data, "SCOTUS".data, "case".data] r1 ||
      (litConsumeCI "SCOTUSCase".data r1).isSome
  | _ => false

/-- INFOBOX_START.search: index of the leftmost match. -/
def findInfoboxStart : List Char → Option Nat
  | [] => none
  | cs@(_ :: rest) =>
    if infoboxStartHere cs then some 0
    else (findInfoboxStart rest).map (· + 1)

/-- The brace-depth scanning loop of extract_infobox: from the current
position, step over "{{" (depth+1) and "}}" (depth-1, returning the consumed
length as soon as depth reaches zero or below) or a single character.
Returns none when end of text is reached first. -/
def scanFrom : List Char → Int → Option Nat
  | [], _ => none
  | [_], _ => none
  | c1 :: c2 :: rest, d =>
    if c1 = '{' ∧ c2 = '{' then
      (scanFrom rest (d + 1)).map (· + 2)
    else if c1 = '}' ∧ c2 = '}' then
      if d - 1 ≤ 0 then some 2
      else (scanFrom rest (d - 1)).map (· + 2)
    else
      (scanFrom (c2 :: rest) d).map (· + 1)

/-- Pure depth count over a character list with the same greedy two-character
tokenization as the scanning loop. -/
def braceDepth : List Char → Int → Int
  | [], d => d
  | [_], d => d
  | c1 :: c2 :: rest, d =>
    if c1 = '{' ∧ c2 = '{' then braceDepth rest (d + 1)
    else if c1 = '}' ∧ c2 = '}' then braceDepth rest (d - 1)
    else braceDepth (c2 :: rest) d

/-- extract_infobox of caseCollector.py: locate the template start, then
scan to the balancing close marker; empty string when the start pattern is
absent or the braces never close. -/
def extract_infobox (text : String) : String :=
  match findInfoboxStart text.data with
  | none => ""
  | some start =>
    match scanFrom (text.data.drop start) 0 with
    | none => ""
    | some n => String.mk ((text.data.drop start).take n)

/-! ## caseCollector.py: markup cleaner -/

/-- After "[http", consume `s?://`; some rest on success. -/
def matchHttpColon : List Char → Option (List Char)
  | 's' :: ':' :: '/' :: '/' :: rest => some rest
  | ':' :: '/' :: '/' :: rest => some rest
  | _ => none

/-- Index of the first ']' in the list. -/
def findCloseIdx : List Char → Option Nat
  | [] => none
  | ']' :: _ => some 0
  | _ :: rest => (findCloseIdx rest).map (· + 1)

/-- Tail of pattern 1 after the URL body run: either an immediate ']', or
(backtracking of `(?:\s+[^\]]+)?`) a whitespace character, at least one more
character, and the first ']' after them. -/
def urlTail : List Char → Option (List Char)
  | [] => none
  | ']' :: rest => some rest
  | c :: rest =>
    if pyIsSpace c then
      match findCloseIdx rest with
      | some j => if 1 ≤ j then some (rest.drop (j + 1)) else none
      | none => none
    else none

/-- Pattern 1 of clean_markup, `\[https?://[^\]\s]*(?:\s+[^\]]+)?\]`, matched
at this position; some (replacement, rest) on success. -/
def extLinkAt : List Char → Option (List Char × List Char)
  | '[' :: 'h' :: 't' :: 't' :: 'p' :: rest =>
    match matchHttpColon rest with
    | none => none
    | some r =>
      let s := takeWhileSplit (fun c => !pyIsSpace c && c != ']') r
      match urlTail s.2 with
      | some rest2 => some ([], rest2)
      | none => none
  | _ => none

/-- Group 2 of pattern 2: a nonempty run of non-']' characters followed by
"]]"; some (group, rest) on success. -/
def wikiLinkBody (r : List Char) : Option (List Char × List Char) :=
  let s := takeWhileSplit (fun c => c != ']') r
  match s.2 with
  | ']' :: ']' :: rest => if s.1 = [] then none else some (s.1, rest)
  | _ => none

/-- Pattern 2 of clean_markup, `\[\[([^\]|]+\|)?([^\]]+)\]\]`, matched at this
position, replaced by group 2.  The optional group 1 (tried first) is a
nonempty pipe-free bracket-free run up to a '|'. -/
def wikiLinkAt : List Char → Option (List Char × List Char)
  | '[' :: '[' :: rest =>
    let s := takeWhileSplit (fun c => c != ']' && c != '|') rest
    match s.2 with
    | '|' :: afterPipe =>
      if s.1 ≠ [] then
        match wikiLinkBody afterPipe with
        | some x => some x
        | none => wikiLinkBody rest
      else wikiLinkBody rest
    | _ => wikiLinkBody rest
  | _ => none

/-- Pattern 3 of clean_markup, `<.*?>`: from '<', the lazy run stops at the
first '>' with no intervening newline (regex `.` excludes newline). -/
def tagScan : List Char → Option (List Char)
  | [] => none
  | '>' :: rest => some rest
  | '\n' :: _ => none
  | _ :: rest => tagScan rest

/-- Pattern 3 matched at this position. -/
def tagAt : List Char → Option (List Char × List Char)
  | '<' :: rest =>
    match tagScan rest with
    | some r => some ([], r)
    | none => none
  | _ => none

/-- re.sub driver: scan left to right, replacing each leftmost match and
continuing after it.  Fuel-based (every matcher here consumes at least one
character, so fuel = length suffices and the 0-fuel branch is unreachable). -/
def subScan (tm : List Char → Option (List Char × List Char)) : Nat → List Char → List Char
  | _, [] => []
  | 0, cs => cs
  | fuel + 1, c :: rest =>
    match tm (c :: rest) with
    | some x => x.1 ++ subScan tm fuel x.2
    | none => c :: subScan tm fuel rest

/-- clean_markup of caseCollector.py: strip external links, collapse wiki
links to their label part, strip angle-bracket tags, in that order. -/
def clean_markup (t : String) : String :=
  let p1 := subScan extLinkAt t.data.length t.data
  let p2 := subScan wikiLinkAt p1.length p1
  let p3 := subScan tagAt p2.length p2
  String.mk p3

/-! ## caseCollector.py: identifier extractor -/

/-- Optionally consume one given character (regex `X?`). -/
def optChar (x : Char) : List Char → List Char × List Char
  | [] => ([], [])
  | c :: rest => if c = x then ([x], rest) else ([], c :: rest)

/-- Word boundary \b after a match that ends in a word character: the next
character must not be a word character. -/
def boundaryOk : List Char → Bool
  | [] => true
  | c :: _ => !isWordChar c

/-- US_CITE_RE `\b\d+\s*U\.?\s*S\.?\s*\d+\b` (re.I) matched at this position;
prevWord records whether the preceding character is a word character (for the
leading \b; the first matched character is a digit).  Returns group 0. -/
def usCiteAt (prevWord : Bool) (cs : List Char) : Option (List Char) :=
  if prevWord then none
  else
    let s1 := takeWhileSplit Char.isDigit cs
    if s1.1 = [] then none
    else
      let s2 := takeWhileSplit pyIsSpace s1.2
      match s2.2 with
      | u :: r3 =>
        if u = 'U' ∨ u = 'u' then
          let d1 := optChar '.' r3
          let s3 := takeWhileSplit pyIsSpace d1.2
          match s3.2 with
          | sc :: r6 =>
            if sc = 'S' ∨ sc = 's' then
              let d2 := optChar '.' r6
              let s4 := takeWhileSplit pyIsSpace d2.2
              let s5 := takeWhileSplit Char.isDigit s4.2
              if s5.1 = [] then none
              else if boundaryOk s5.2 then
                some (s1.1 ++ s2.1 ++ u :: d1.1 ++ s3.1 ++ sc :: d2.1 ++ s4.1 ++ s5.1)
              else none
            else none
          | [] => none
        else none
      | [] => none

/-- US_CITE_RE.search: scan positions threading the word-character flag. -/
def searchUSCite : Bool → List Char → Option (List Char)
  | _, [] => none
  | prevW, cs@(c :: rest) =>
    match usCiteAt prevW cs with
    | some g => some g
    | none => searchUSCite (isWordChar c) rest

/-- Dash class `[-–—]` of DOCKET_TOKEN_RE. -/
def isDocketDash (c : Char) : Bool :=
  c == '-' || c == '–' || c == '—'

/-- The capturing group of DOCKET_TOKEN_RE at this exact position:
`\d{1,3}[-–—]\d{1,5}` or `\d{1,3}[A-Z]\d{1,4}` (re.I makes the letter either
case) followed by \b.  Greedy digit runs must be consumed whole, so a run
longer than the counter bound kills both alternatives. -/
def docketGroupAt (cs : List Char) : Option (List Char) :=
  let s1 := takeWhileSplit Char.isDigit cs
  if s1.1 = [] ∨ 3 < s1.1.length then none
  else
    match s1.2 with
    | c :: r2 =>
      if isDocketDash c then
        let s2 := takeWhileSplit Char.isDigit r2
        if s2.1 = [] ∨ 5 < s2.1.length then none
        else if boundaryOk s2.2 then some (s1.1 ++ c :: s2.1) else none
      else if c.isAlpha then
        let s2 := takeWhileSplit Char.isDigit r2
        if s2.1 = [] ∨ 4 < s2.1.length then none
        else if boundaryOk s2.2 then some (s1.1 ++ c :: s2.1) else none
      else none
    | [] => none

/-- The optional period of the `No\.?` prefix: drop one leading '.'. -/
def dropNoDot : List Char → List Char
  | '.' :: t => t
  | r => r

/-- DOCKET_TOKEN_RE matched at this position: optional case-insensitive
"No" `\.?` `\s*` prefix (tried first, excluded from the group), then the
group.  Every match starts with a word character, so the leading \b reduces
to the previous character not being a word character. -/
def docketMatchAt (prevWord : Bool) (cs : List Char) : Option (List Char) :=
  if prevWord then none
  else
    match cs with
    | c1 :: c2 :: rest =>
      if (c1 = 'N' ∨ c1 = 'n') ∧ (c2 = 'o' ∨ c2 = 'O') then
        match docketGroupAt (wsSkip (dropNoDot rest)) with
        | some g => some g
        | none => docketGroupAt cs
      else docketGroupAt cs
    | _ => docketGroupAt cs

/-- DOCKET_TOKEN_RE.search. -/
def searchDocket : Bool → List Char → Option (List Char)
  | _, [] => none
  | prevW, cs@(c :: rest) =>
    match docketMatchAt prevW cs with
    | some g => some g
    | none => searchDocket (isWordChar c) rest

/-- Lookahead key test `\|\s*\w+\s*=` used to end the citations field value
(after a newline). -/
def fieldKeyLookahead : List Char → Bool
  | '|' :: r =>
    let s := takeWhileSplit isWordChar (wsSkip r)
    if s.1 = [] then false
    else
      match wsSkip s.2 with
      | '=' :: _ => true
      | _ => false
  | _ => false

/-- Stop test of the lazy citations value: `(?=\n\|\s*\w+\s*=|\n\}\}|$)`,
where `$` matches at end of text or before one final newline. -/
def lookaheadStop : List Char → Bool
  | [] => true
  | ['\n'] => true
  | '\n' :: rest => fieldKeyLookahead rest || rest.take 2 = ['}', '}']
  | _ => false

/-- The lazy group `((?:.|\n)*?)` before the lookahead: collect characters up
to the first stop position (always terminates: the end of text stops it). -/
def takeValue : List Char → List Char
  | [] => []
  | cs@(c :: rest) => if lookaheadStop cs then [] else c :: takeValue rest

/-- Citations key `\|\s*[Cc]itations\s*=` matched at this position; some
remainder after '=' on success.  Only the initial letter is case-flexible. -/
def citationsKeyAt : List Char → Option (List Char)
  | '|' :: rest =>
    match wsSkip rest with
    | c :: r2 =>
      if c = 'C' ∨ c = 'c' then
        match litConsume "itations".data r2 with
        | some r3 =>
          match wsSkip r3 with
          | '=' :: r5 => some r5
          | _ => none
        | none => none
      else none
    | [] => none
  | _ => none

/-- re.search of the citations field: at the leftmost key match the value
always completes (the `$` lookahead alternative matches at end of text), so
the field value is the lazy run after the greedy `\s*`. -/
def citationsFieldSearch : List Char → Option (List Char)
  | [] => none
  | cs@(_ :: rest) =>
    match citationsKeyAt cs with
    | some afterEq => some (takeValue (wsSkip afterEq))
    | none => citationsFieldSearch rest

/-- Key pattern `\|\s*[Uu][Ss][Vv]ol\s*=\s*([0-9]+)` at this position. -/
def usVolAt : List Char → Option (List Char)
  | '|' :: rest =>
    match wsSkip rest with
    | u :: s :: v :: 'o' :: 'l' :: r2 =>
      if (u = 'U' ∨ u = 'u') ∧ (s = 'S' ∨ s = 's') ∧ (v = 'V' ∨ v = 'v') then
        match wsSkip r2 with
        | '=' :: r4 =>
          let d := takeWhileSplit Char.isDigit (wsSkip r4)
          if d.1 = [] then none else some d.1
        | _ => none
      else none
    | _ => none
  | _ => none

/-- Key pattern `\|\s*[Uu][Ss][Pp]age\s*=\s*([0-9]+)` at this position. -/
def usPageAt : List Char → Option (List Char)
  | '|' :: rest =>
    match wsSkip rest with
    | u :: s :: p :: 'a' :: 'g' :: 'e' :: r2 =>
      if (u = 'U' ∨ u = 'u') ∧ (s = 'S' ∨ s = 's') ∧ (p = 'P' ∨ p = 'p') then
        match wsSkip r2 with
        | '=' :: r4 =>
          let d := takeWhileSplit Char.isDigit (wsSkip r4)
          if d.1 = [] then none else some d.1
        | _ => none
      else none
    | _ => none
  | _ => none

/-- Value part `\s*([^\n]+)` of the docket line: greedy `\s*` first; when
everything to the end is whitespace the engine backtracks to leave one last
non-newline whitespace character for the group. -/
def docketRhs (r3 : List Char) : Option (List Char) :=
  let s := takeWhileSplit pyIsSpace r3
  match s.2 with
  | _ :: _ => some (takeWhileSplit (fun c => c != '\n') s.2).1
  | [] =>
    match s.1.reverse.dropWhile (fun c => c == '\n') with
    | c :: _ => some [c]
    | [] => none

/-- Key pattern `\|\s*[Dd]ocket\s*=` plus its value at this position. -/
def docketLineAt : List Char → Option (List Char)
  | '|' :: rest =>
    match wsSkip rest with
    | c :: r2 =>
      if c = 'D' ∨ c = 'd' then
        match litConsume "ocket".data r2 with
        | some r3 =>
          match wsSkip r3 with
          | '=' :: r4 => docketRhs r4
          | _ => none
        | none => none
      else none
    | [] => none
  | _ => none

/-- re.search over positions for the USVol key. -/
def usVolSearch : List Char → Option (List Char) :=
  searchScan usVolAt

/-- re.search over positions for the USPage key. -/
def usPageSearch : List Char → Option (List Char) :=
  searchScan usPageAt

/-- re.search over positions for the docket line; none also covers a key
whose value fails to yield a group. -/
def docketLineSearch : List Char → Option (List Char) :=
  searchScan docketLineAt

/-- extract_us_cite_and_docket of caseCollector.py. -/
def extract_us_cite_and_docket (box : String) : String × String :=
  let bc := (clean_markup box).data
  let cit := citationsFieldSearch bc
  let us0 : List Char :=
    match cit with
    | some field =>
      match searchUSCite false field with
      | some g => g
      | none => []
    | none => []
  let dk0 : List Char :=
    match cit with
    | some field =>
      match searchDocket false field with
      | some g => g
      | none => []
    | none => []
  let us1 :=
    if us0 = [] then
      match usVolSearch bc, usPageSearch bc with
      | some v, some p => v ++ " U.S. ".data ++ p
      | _, _ => us0
    else us0
  let dk1 :=
    if dk0 = [] then
      match docketLineSearch bc with
      | some rhs =>
        match searchDocket false rhs with
        | some g => g
        | none => []
      | none => []
    else dk0
  let dk2 := pyReplaceStr (pyReplaceStr dk1 "–".data "-".data) "—".data "-".data
  (String.mk (pyStrip us1), String.mk (pyStrip dk2))

/-! ## Spec-side definitions (refinement targets, worded from the claims) -/

/-- Modelled from the claim wording for placeholder classification: the
citation has the shape "<digits> U.S." followed only by underscores, dashes
and whitespace (in any arrangement), with no trailing digit sequence. -/
def specPlaceholderShape (s : String) : Bool :=
  let d := takeWhileSplit Char.isDigit s.data
  if d.1 = [] then false
  else
    match d.2 with
    | ' ' :: 'U' :: '.' :: 'S' :: '.' :: tail =>
      tail.all (fun c => isPlaceholderPad c || pyIsSpace c)
    | _ => false

/-- Modelled from the claim wording for the docket-token shape of C9: one to
three digits, an ASCII hyphen (dash variants already normalized), one to five
digits; or one to three digits, one UPPERCASE letter, one to four digits. -/
def claimDocketShape (s : String) : Bool :=
  let a := takeWhileSplit Char.isDigit s.data
  if a.1 = [] ∨ 3 < a.1.length then false
  else
    match a.2 with
    | c :: r =>
      let b := takeWhileSplit Char.isDigit r
      if b.2 ≠ [] ∨ b.1 = [] then false
      else if c = '-' then b.1.length ≤ 5
      else if c.isUpper then b.1.length ≤ 4
      else false
    | [] => false

/-- The docket-token shape as the code actually enforces it: as
claimDocketShape but the letter of the second alternative may have either
case (DOCKET_TOKEN_RE is compiled with IGNORECASE). -/
def amendedDocketShape (s : String) : Bool :=
  let a := takeWhileSplit Char.isDigit s.data
  if a.1 = [] ∨ 3 < a.1.length then false
  else
    match a.2 with
    | c :: r =>
      let b := takeWhileSplit Char.isDigit r
      if b.2 ≠ [] ∨ b.1 = [] then false
      else if c = '-' then b.1.length ≤ 5
      else if c.isAlpha then b.1.length ≤ 4
      else false
    | [] => false

/-! ## Lemmas about the string primitives -/

theorem tws_eq_append (p : Char → Bool) (cs : List Char) :
    (takeWhileSplit p cs).1 ++ (takeWhileSplit p cs).2 = cs := by
  induction cs with
  | nil => rfl
  | cons c rest ih =>
    by_cases h : p c
    · simp [takeWhileSplit, h, ih]
    · simp [takeWhileSplit, h]

theorem tws_all (p : Char → Bool) (cs : List Char) :
    (takeWhileSplit p cs).1.all p = true := by
  induction cs with
  | nil => rfl
  | cons c rest ih =>
    by_cases h : p c
    · simp [takeWhileSplit, h, ih]
    · simp [takeWhileSplit, h]

theorem tws_rest_head (p : Char → Bool) (cs : List Char) {c : Char} {r : List Char}
    (h : (takeWhileSplit p cs).2 = c :: r) : p c = false := by
  induction cs with
  | nil => simp [takeWhileSplit] at h
  | cons x rest ih =>
    by_cases hx : p x
    · simp [takeWhileSplit, hx] at h
      exact ih h
    · simp [takeWhileSplit, hx] at h
      obtain ⟨h1, _⟩ := h
      subst h1
      simpa using hx

theorem tws_of_head_stop (p : Char → Bool) (r : List Char)
    (h : ∀ c, r.head? = some c → p c = false) : takeWhileSplit p r = ([], r) := by
  cases r with
  | nil => rfl
  | cons c t =>
    have := h c rfl
    simp [takeWhileSplit, this]

theorem tws_append_all (p : Char → Bool) (l r : List Char) (hl : l.all p = true) :
    takeWhileSplit p (l ++ r) =
      (l ++ (takeWhileSplit p r).1, (takeWhileSplit p r).2) := by
  induction l with
  | nil => simp
  | cons c t ih =>
    simp only [List.all_cons, Bool.and_eq_true] at hl
    simp [takeWhileSplit, hl.1, ih hl.2]

theorem tws_split_at (p : Char → Bool) (l r : List Char) (hl : l.all p = true)
    (hr : ∀ c, r.head? = some c → p c = false) :
    takeWhileSplit p (l ++ r) = (l, r) := by
  rw [tws_append_all p l r hl, tws_of_head_stop p r hr]
  simp

theorem tws_all_consume (p : Char → Bool) (l : List Char) (hl : l.all p = true) :
    takeWhileSplit p l = (l, []) := by
  have := tws_split_at p l [] hl (by intro c h; simp at h)
  simpa using this

theorem pyStrip_nil : pyStrip [] = [] := rfl

theorem dropWhile_eq_self_of_head (p : Char → Bool) (l : List Char)
    (h : ∀ c, l.head? = some c → p c = false) : l.dropWhile p = l := by
  cases l with
  | nil => rfl
  | cons c t => simp [List.dropWhile_cons, h c rfl]

theorem pyStrip_eq_self {cs : List Char}
    (h1 : ∀ c, cs.head? = some c → pyIsSpace c = false)
    (h2 : ∀ c, cs.getLast? = some c → pyIsSpace c = false) : pyStrip cs = cs := by
  unfold pyStrip
  rw [dropWhile_eq_self_of_head pyIsSpace cs h1]
  rw [dropWhile_eq_self_of_head pyIsSpace cs.reverse (by
    intro c hc
    exact h2 c (by simpa [List.head?_reverse] using hc))]
  exact List.reverse_reverse cs

theorem containsSub_cons_elim {pat : List Char} {c : Char} {rest : List Char}
    (h : containsSub pat (c :: rest) = false) :
    pat.isPrefixOf (c :: rest) = false ∧ containsSub pat rest = false := by
  simp only [containsSub, Bool.or_eq_false_iff] at h
  exact h

theorem pyReplaceAux_of_not_contains (pat repl : List Char) :
    ∀ (fuel : Nat) (cs : List Char), containsSub pat cs = false →
      pyReplaceAux pat repl fuel cs = cs := by
  intro fuel
  induction fuel with
  | zero =>
    intro cs _
    cases cs <;> rfl
  | succ n ih =>
    intro cs h
    cases cs with
    | nil => rfl
    | cons c rest =>
      obtain ⟨h1, h2⟩ := containsSub_cons_elim h
      simp [pyReplaceAux, h1, ih rest h2]

theorem isPrefixOf_false_of_shorter {p1 p2 cs : List Char}
    (hpre : p1 <+: p2) (h : p1.isPrefixOf cs = false) : p2.isPrefixOf cs = false := by
  by_contra hcon
  rw [Bool.not_eq_false, List.isPrefixOf_iff_prefix] at hcon
  rw [← Bool.not_eq_true, List.isPrefixOf_iff_prefix] at h
  exact h (hpre.trans hcon)

theorem containsSub_mono {p1 p2 : List Char} (hpre : p1 <+: p2) :
    ∀ cs : List Char, containsSub p1 cs = false → containsSub p2 cs = false := by
  intro cs
  induction cs with
  | nil =>
    intro h
    cases hp2 : p2 with
    | nil =>
      subst hp2
      have hnil : p1 = [] := List.prefix_nil.mp hpre
      subst hnil
      simp [containsSub] at h
    | cons a t => rfl
  | cons c rest ih =>
    intro h
    obtain ⟨h1, h2⟩ := containsSub_cons_elim h
    simp only [containsSub, Bool.or_eq_false_iff]
    exact ⟨isPrefixOf_false_of_shorter hpre h1, ih h2⟩

theorem pyReplaceAux_single_map (p q : Char) :
    ∀ (fuel : Nat) (cs : List Char), cs.length ≤ fuel →
      pyReplaceAux [p] [q] fuel cs = cs.map (fun c => if c = p then q else c) := by
  intro fuel
  induction fuel with
  | zero =>
    intro cs h
    have : cs = [] := List.length_eq_zero.mp (Nat.le_zero.mp h)
    subst this
    rfl
  | succ n ih =>
    intro cs h
    cases cs with
    | nil => rfl
    | cons c rest =>
      simp only [List.length_cons, Nat.succ_le_succ_iff] at h
      by_cases hc : c = p
      · subst hc
        have hp : ([c] : List Char).isPrefixOf (c :: rest) = true := by
          rw [ List.isPrefixOf_iff_prefix]
          exact ⟨rest, rfl⟩
        simp [pyReplaceAux, hp, ih rest h]
      · have hp : ([p] : List Char).isPrefixOf (c :: rest) = false := by
          cases hpp : ([p] : List Char).isPrefixOf (c :: rest) with
          | false => rfl
          | true =>
            rw [ List.isPrefixOf_iff_prefix] at hpp
            obtain ⟨t, ht⟩ := hpp
            rw [List.singleton_append, List.cons.injEq] at ht
            exact absurd ht.1.symm hc
        simp [pyReplaceAux, hp, hc, ih rest h]

theorem pyReplaceAux_mem (pat repl : List Char) :
    ∀ (fuel : Nat) (cs : List Char) (c : Char),
      c ∈ pyReplaceAux pat repl fuel cs → c ∈ cs ∨ c ∈ repl := by
  intro fuel
  induction fuel with
  | zero =>
    intro cs c h
    cases cs with
    | nil => simp [pyReplaceAux] at h
    | cons x rest => exact Or.inl h
  | succ n ih =>
    intro cs c h
    cases cs with
    | nil => simp [pyReplaceAux] at h
    | cons x rest =>
      by_cases hp : pat ≠ [] ∧ pat.isPrefixOf (x :: rest)
      · simp only [pyReplaceAux, if_pos hp, List.mem_append] at h
        rcases h with h | h
        · exact Or.inr h
        · rcases ih _ c h with h2 | h2
          · exact Or.inl (List.mem_cons_of_mem x (List.mem_of_mem_drop h2))
          · exact Or.inr h2
      · simp only [pyReplaceAux, if_neg hp, List.mem_cons] at h
        rcases h with h | h
        · exact Or.inl (by simp [h])
        · rcases ih _ c h with h2 | h2
          · exact Or.inl (List.mem_cons_of_mem x h2)
          · exact Or.inr h2

theorem containsSub_single_of_not_mem {c : Char} {cs : List Char} (h : c ∉ cs) :
    containsSub [c] cs = false := by
  induction cs with
  | nil => rfl
  | cons x rest ih =>
    simp only [List.mem_cons, not_or] at h
    have h1 : ([c] : List Char).isPrefixOf (x :: rest) = false := by
      cases hpp : ([c] : List Char).isPrefixOf (x :: rest) with
      | false => rfl
      | true =>
        rw [ List.isPrefixOf_iff_prefix] at hpp
        obtain ⟨t, ht⟩ := hpp
        rw [List.singleton_append, List.cons.injEq] at ht
        exact absurd ht.1 h.1
    simp [containsSub, h1, ih h.2]

theorem isDigit_not_space {c : Char} (h : c.isDigit = true) : pyIsSpace c = false := by
  cases hs : pyIsSpace c with
  | false => rfl
  | true =>
    simp only [pyIsSpace, Bool.or_eq_true, beq_iff_eq] at hs
    rcases hs with ((((h1 | h1) | h1) | h1) | h1) | h1 <;> subst h1 <;> exact absurd h (by decide)

theorem pad_not_space {c : Char} (h : isPlaceholderPad c = true) : pyIsSpace c = false := by
  simp only [isPlaceholderPad, Bool.or_eq_true, beq_iff_eq] at h
  rcases h with ((h1 | h1) | h1) | h1 <;> subst h1 <;> decide

theorem isDigit_not_pad {c : Char} (h : c.isDigit = true) : isPlaceholderPad c = false := by
  cases hs : isPlaceholderPad c with
  | false => rfl
  | true =>
    simp only [isPlaceholderPad, Bool.or_eq_true, beq_iff_eq] at hs
    rcases hs with ((h1 | h1) | h1) | h1 <;> subst h1 <;> exact absurd h (by decide)

theorem isAlpha_ne_en_dash {c : Char} (h : c.isAlpha = true) : c ≠ '–' := by
  intro he
  subst he
  exact absurd h (by decide)

theorem isAlpha_ne_em_dash {c : Char} (h : c.isAlpha = true) : c ≠ '—' := by
  intro he
  subst he
  exact absurd h (by decide)

theorem isDigit_ne_en_dash {c : Char} (h : c.isDigit = true) : c ≠ '–' := by
  intro he
  subst he
  exact absurd h (by decide)

theorem isDigit_ne_em_dash {c : Char} (h : c.isDigit = true) : c ≠ '—' := by
  intro he
  subst he
  exact absurd h (by decide)

/-! ## Lemmas about pySplit and pyJoin (whitespace collapse) -/

theorem pySplitAux_mem :
    ∀ (cs acc : List Char) (w : List Char), w ∈ pySplitAux acc cs →
      ∀ x ∈ w, x ∈ acc ∨ x ∈ cs := by
  intro cs
  induction cs with
  | nil =>
    intro acc w hw x hx
    by_cases ha : acc = []
    · simp [pySplitAux, ha] at hw
    · simp [pySplitAux, ha] at hw
      subst hw
      exact Or.inl (List.mem_reverse.mp hx)
  | cons c rest ih =>
    intro acc w hw x hx
    by_cases hc : pyIsSpace c
    · by_cases ha : acc = []
      · simp only [pySplitAux, if_pos hc, if_pos ha] at hw
        rcases ih [] w hw x hx with h | h
        · simp at h
        · exact Or.inr (List.mem_cons_of_mem c h)
      · simp only [pySplitAux, if_pos hc, if_neg ha, List.mem_cons] at hw
        rcases hw with hw | hw
        · subst hw
          exact Or.inl (List.mem_reverse.mp hx)
        · rcases ih [] w hw x hx with h | h
          · simp at h
          · exact Or.inr (List.mem_cons_of_mem c h)
    · simp only [pySplitAux, if_neg hc] at hw
      rcases ih (c :: acc) w hw x hx with h | h
      · rcases List.mem_cons.mp h with h2 | h2
        · exact Or.inr (by simp [h2])
        · exact Or.inl h2
      · exact Or.inr (List.mem_cons_of_mem c h)

theorem pySplitAux_words :
    ∀ (cs acc : List Char), acc.all (fun c => !pyIsSpace c) = true →
      ∀ w ∈ pySplitAux acc cs, w ≠ [] ∧ w.all (fun c => !pyIsSpace c) = true := by
  intro cs
  induction cs with
  | nil =>
    intro acc hacc w hw
    by_cases ha : acc = []
    · simp [pySplitAux, ha] at hw
    · simp [pySplitAux, ha] at hw
      subst hw
      exact ⟨by simpa using ha, by simpa using hacc⟩
  | cons c rest ih =>
    intro acc hacc w hw
    by_cases hc : pyIsSpace c
    · by_cases ha : acc = []
      · simp only [pySplitAux, if_pos hc, if_pos ha] at hw
        exact ih [] rfl w hw
      · simp only [pySplitAux, if_pos hc, if_neg ha, List.mem_cons] at hw
        rcases hw with hw | hw
        · subst hw
          exact ⟨by simpa using ha, by simpa using hacc⟩
        · exact ih [] rfl w hw
    · simp only [pySplitAux, if_neg hc] at hw
      refine ih (c :: acc) ?_ w hw
      simp [hacc, hc]

theorem pySplitAux_word_append :
    ∀ (w acc rest : List Char), w.all (fun c => !pyIsSpace c) = true →
      acc.reverse ++ w ≠ [] →
      pySplitAux acc (w ++ ' ' :: rest) = (acc.reverse ++ w) :: pySplitAux [] rest := by
  intro w
  induction w with
  | nil =>
    intro acc rest _ hne
    have ha : acc ≠ [] := by
      intro h
      subst h
      simp at hne
    simp [pySplitAux, ha, show pyIsSpace ' ' = true from rfl]
  | cons c w' ih =>
    intro acc rest hall hne
    simp only [List.all_cons, Bool.and_eq_true, Bool.not_eq_true'] at hall
    show pySplitAux acc ((c :: w') ++ ' ' :: rest) = (acc.reverse ++ c :: w') :: pySplitAux [] rest
    rw [List.cons_append]
    rw [show pySplitAux acc (c :: (w' ++ ' ' :: rest)) = pySplitAux (c :: acc) (w' ++ ' ' :: rest) by
      simp [pySplitAux, hall.1]]
    rw [ih (c :: acc) rest hall.2 (by simp)]
    simp

theorem pySplitAux_word_all :
    ∀ (w acc : List Char), w.all (fun c => !pyIsSpace c) = true →
      acc.reverse ++ w ≠ [] →
      pySplitAux acc w = [acc.reverse ++ w] := by
  intro w
  induction w with
  | nil =>
    intro acc _ hne
    have ha : acc ≠ [] := by
      intro h
      subst h
      simp at hne
    simp [pySplitAux, ha]
  | cons c w' ih =>
    intro acc hall _
    simp only [List.all_cons, Bool.and_eq_true, Bool.not_eq_true'] at hall
    show pySplitAux acc (c :: w') = [acc.reverse ++ c :: w']
    rw [show pySplitAux acc (c :: w') = pySplitAux (c :: acc) w' by simp [pySplitAux, hall.1]]
    rw [ih (c :: acc) hall.2 (by simp)]
    simp

theorem pySplit_pyJoin :
    ∀ ws : List (List Char),
      (∀ w ∈ ws, w ≠ [] ∧ w.all (fun c => !pyIsSpace c) = true) →
      pySplit (pyJoin ws) = ws := by
  intro ws
  induction ws with
  | nil => intro _; rfl
  | cons w tail ih =>
    intro h
    cases tail with
    | nil =>
      have hw := h w (by simp)
      show pySplitAux [] (pyJoin [w]) = [w]
      rw [show pyJoin [w] = w from rfl]
      rw [pySplitAux_word_all w [] hw.2 (by simpa using hw.1)]
      rfl
    | cons w2 t2 =>
      have hw := h w (by simp)
      show pySplitAux [] (pyJoin (w :: w2 :: t2)) = w :: w2 :: t2
      rw [show pyJoin (w :: w2 :: t2) = w ++ ' ' :: pyJoin (w2 :: t2) from rfl]
      rw [pySplitAux_word_append w [] (pyJoin (w2 :: t2)) hw.2 (by simpa using hw.1)]
      have := ih (fun x hx => h x (by simp [hx]))
      simpa using this

theorem pyJoin_ne_nil {ws : List (List Char)} (h1 : ws ≠ [])
    (h2 : ∀ w ∈ ws, w ≠ []) : pyJoin ws ≠ [] := by
  cases ws with
  | nil => exact absurd rfl h1
  | cons w tail =>
    cases tail with
    | nil => simpa using h2 w (by simp)
    | cons w2 t2 =>
      show w ++ ' ' :: pyJoin (w2 :: t2) ≠ []
      simp

theorem pyJoin_head :
    ∀ ws : List (List Char),
      (∀ w ∈ ws, w ≠ [] ∧ w.all (fun c => !pyIsSpace c) = true) →
      ∀ c, (pyJoin ws).head? = some c → pyIsSpace c = false := by
  intro ws h c hc
  cases ws with
  | nil => simp [pyJoin] at hc
  | cons w tail =>
    have hw := h w (by simp)
    obtain ⟨x, t', hx⟩ : ∃ x t', w = x :: t' := by
      cases w with
      | nil => exact absurd rfl hw.1
      | cons a b => exact ⟨a, b, rfl⟩
    have hxw : (pyJoin (w :: tail)).head? = some x := by
      cases tail with
      | nil => simp [pyJoin, hx]
      | cons w2 t2 => simp [pyJoin, hx]
    rw [hxw] at hc
    injection hc with hc
    have hcw : c ∈ w := by
      rw [hx, ← hc]
      simp
    simpa using (List.all_eq_true.mp hw.2 c hcw)

theorem pyJoin_getLast :
    ∀ ws : List (List Char),
      (∀ w ∈ ws, w ≠ [] ∧ w.all (fun c => !pyIsSpace c) = true) →
      ∀ c, (pyJoin ws).getLast? = some c → pyIsSpace c = false := by
  intro ws
  induction ws with
  | nil =>
    intro _ c hc
    simp [pyJoin] at hc
  | cons w tail ih =>
    intro h c hc
    cases tail with
    | nil =>
      have hw := h w (by simp)
      have : c ∈ w := by
        rw [show pyJoin [w] = w from rfl] at hc
        exact List.mem_of_mem_getLast? (Option.mem_def.mpr hc)
      simpa using (List.all_eq_true.mp hw.2 c this)
    | cons w2 t2 =>
      rw [show pyJoin (w :: w2 :: t2) = w ++ ' ' :: pyJoin (w2 :: t2) from rfl] at hc
      rw [List.getLast?_append_cons] at hc
      have hne : pyJoin (w2 :: t2) ≠ [] :=
        pyJoin_ne_nil (by simp) (fun x hx => (h x (by simp [hx])).1)
      obtain ⟨y, t3, hy⟩ : ∃ y t3, pyJoin (w2 :: t2) = y :: t3 := by
        cases hj : pyJoin (w2 :: t2) with
        | nil => exact absurd hj hne
        | cons a b => exact ⟨a, b, rfl⟩
      rw [hy, List.getLast?_cons_cons] at hc
      refine ih (fun x hx => h x (by simp [hx])) c ?_
      rw [hy]
      exact hc

theorem pyStrip_pyJoin {ws : List (List Char)}
    (h : ∀ w ∈ ws, w ≠ [] ∧ w.all (fun c => !pyIsSpace c) = true) :
    pyStrip (pyJoin ws) = pyJoin ws :=
  pyStrip_eq_self (pyJoin_head ws h) (pyJoin_getLast ws h)

theorem pyReplaceStr_of_not_contains {pat : List Char} (repl : List Char) {cs : List Char}
    (h : containsSub pat cs = false) : pyReplaceStr cs pat repl = cs :=
  pyReplaceAux_of_not_contains pat repl cs.length cs h

theorem pyReplaceStr_single_of_not_mem {c : Char} (repl : List Char) {cs : List Char}
    (h : c ∉ cs) : pyReplaceStr cs [c] repl = cs :=
  pyReplaceAux_of_not_contains [c] repl cs.length cs (containsSub_single_of_not_mem h)

theorem pyReplaceStr_mem {pat repl cs : List Char} {c : Char}
    (h : c ∈ pyReplaceStr cs pat repl) : c ∈ cs ∨ c ∈ repl :=
  pyReplaceAux_mem pat repl cs.length cs c h

theorem map_dash_not_mem (p : Char) (v : List Char) (hp : ('-' : Char) ≠ p) :
    p ∉ v.map (fun c => if c = p then '-' else c) := by
  intro h
  obtain ⟨a, _, ha⟩ := List.mem_map.mp h
  by_cases hap : a = p
  · rw [if_pos hap] at ha
    exact hp ha
  · rw [if_neg hap] at ha
    exact hap ha

theorem map_dash_preserves_not_mem (p q : Char) (v : List Char) (hq : q ∉ v) (hqd : q ≠ '-') :
    q ∉ v.map (fun c => if c = p then '-' else c) := by
  intro h
  obtain ⟨a, hav, ha⟩ := List.mem_map.mp h
  by_cases hap : a = p
  · rw [if_pos hap] at ha
    exact hqd ha.symm
  · rw [if_neg hap] at ha
    subst ha
    exact hq hav

theorem dashPair_no_dash (v : List Char) :
    '–' ∉ pyReplaceStr (pyReplaceStr v "–".data "-".data) "—".data "-".data ∧
    '—' ∉ pyReplaceStr (pyReplaceStr v "–".data "-".data) "—".data "-".data := by
  have e1 : pyReplaceStr v "–".data "-".data =
      v.map (fun c => if c = '–' then '-' else c) :=
    pyReplaceAux_single_map '–' '-' v.length v (le_refl _)
  rw [e1]
  set v2 := v.map (fun c => if c = '–' then '-' else c) with hv2
  have e2 : pyReplaceStr v2 "—".data "-".data =
      v2.map (fun c => if c = '—' then '-' else c) :=
    pyReplaceAux_single_map '—' '-' v2.length v2 (le_refl _)
  rw [e2]
  constructor
  · exact map_dash_preserves_not_mem '—' '–' v2
      (by rw [hv2]; exact map_dash_not_mem '–' v (by decide)) (by decide)
  · exact map_dash_not_mem '—' v2 (by decide)

theorem pyJoin_mem {c : Char} :
    ∀ ws : List (List Char), c ∈ pyJoin ws → (∃ w ∈ ws, c ∈ w) ∨ c = ' ' := by
  intro ws
  induction ws with
  | nil =>
    intro h
    simp [pyJoin] at h
  | cons w tail ih =>
    intro h
    cases tail with
    | nil => exact Or.inl ⟨w, by simp, h⟩
    | cons w2 t2 =>
      rw [show pyJoin (w :: w2 :: t2) = w ++ ' ' :: pyJoin (w2 :: t2) from rfl] at h
      rcases List.mem_append.mp h with h2 | h2
      · exact Or.inl ⟨w, by simp, h2⟩
      · rcases List.mem_cons.mp h2 with h3 | h3
        · exact Or.inr h3
        · rcases ih h3 with ⟨w3, hw3, hc3⟩ | h4
          · exact Or.inl ⟨w3, by simp [hw3], hc3⟩
          · exact Or.inr h4

theorem normUsReplaced_no_dash (cs : List Char) :
    '–' ∉ normUsReplaced cs ∧ '—' ∉ normUsReplaced cs :=
  dashPair_no_dash _

theorem norm_us_no_dash (s : String) :
    '–' ∉ (norm_us s).data ∧ '—' ∉ (norm_us s).data := by
  have key : ∀ c : Char, c ∈ (norm_us s).data → c ≠ ' ' → c ∈ normUsReplaced s.data := by
    intro c hc hcs
    rcases pyJoin_mem _ hc with ⟨w, hw, hcw⟩ | hsp
    · rcases pySplitAux_mem _ [] w hw c hcw with h0 | h0
      · simp at h0
      · exact h0
    · exact absurd hsp hcs
  constructor
  · intro hc
    exact (normUsReplaced_no_dash s.data).1 (key '–' hc (by decide))
  · intro hc
    exact (normUsReplaced_no_dash s.data).2 (key '—' hc (by decide))

theorem norm_docket_no_dash (s : String) :
    '–' ∉ (norm_docket s).data ∧ '—' ∉ (norm_docket s).data := by
  have hdata : (norm_docket s).data =
      pyReplaceStr (pyReplaceStr (pyReplaceStr (pyReplaceStr (pyStrip s.data)
        "–".data "-".data) "—".data "-".data) "No. ".data "".data) "No.".data "".data := rfl
  have key : ∀ c : Char, c ∈ (norm_docket s).data →
      c ∈ pyReplaceStr (pyReplaceStr (pyStrip s.data) "–".data "-".data) "—".data "-".data := by
    intro c hc
    rw [hdata] at hc
    rcases pyReplaceStr_mem hc with h2 | h2
    · rcases pyReplaceStr_mem h2 with h3 | h3
      · exact h3
      · simp at h3
    · simp at h2
  constructor
  · intro hc
    exact (dashPair_no_dash (pyStrip s.data)).1 (key '–' hc)
  · intro hc
    exact (dashPair_no_dash (pyStrip s.data)).2 (key '—' hc)

/-- C5 counterexample: neither normalizer is idempotent on all strings.  For
normalizeCite, "U.  S" (two spaces) is untouched by the replacement pass but
whitespace collapse then creates "U. S", which a second pass rewrites to
"U.S".  For normalizeDocket, removing "No. " from "No.  x" leaves leading
whitespace that only a second pass strips. -/
theorem C5_norm_idempotence_cex :
    norm_us (norm_us "U.  S") ≠ norm_us "U.  S" ∧
    norm_docket (norm_docket "No.  x") ≠ norm_docket "No.  x" := by
  constructor <;> decide

/-- C5 amended: normalizeCite is idempotent on every string whose normalized
form contains no occurrence of "U. S", and normalizeDocket is idempotent on
every string whose normalized form contains no occurrence of "No." and is
free of leading/trailing whitespace; full idempotence fails (see the
counterexample). -/
theorem C5_norm_idempotence_amended :
    (∀ s : String, containsSub "U. S".data (norm_us s).data = false →
      norm_us (norm_us s) = norm_us s) ∧
    (∀ s : String, containsSub "No.".data (norm_docket s).data = false →
      pyStrip (norm_docket s).data = (norm_docket s).data →
      norm_docket (norm_docket s) = norm_docket s) := by
  constructor
  · intro s h
    have hws : ∀ w ∈ pySplit (normUsReplaced s.data),
        w ≠ [] ∧ w.all (fun c => !pyIsSpace c) = true :=
      pySplitAux_words (normUsReplaced s.data) [] rfl
    have hdata : (norm_us s).data = pyJoin (pySplit (normUsReplaced s.data)) := rfl
    have hstrip : pyStrip (norm_us s).data = (norm_us s).data := by
      rw [hdata]
      exact pyStrip_pyJoin hws
    have h1 : containsSub "U. S.".data (norm_us s).data = false :=
      containsSub_mono ⟨['.'], rfl⟩ _ h
    have hen := (norm_us_no_dash s).1
    have hem := (norm_us_no_dash s).2
    have hrepl : normUsReplaced (norm_us s).data = (norm_us s).data := by
      show pyReplaceStr (pyReplaceStr (pyReplaceStr (pyReplaceStr (pyReplaceStr
          (pyStrip (norm_us s).data) "U. S.".data "U.S.".data) "U. S".data "U.S".data)
          "U. S".data "U.S".data) "–".data "-".data) "—".data "-".data = (norm_us s).data
      rw [hstrip, pyReplaceStr_of_not_contains _ h1, pyReplaceStr_of_not_contains _ h,
          pyReplaceStr_of_not_contains _ h,
          pyReplaceStr_single_of_not_mem (c := '–') _ hen,
          pyReplaceStr_single_of_not_mem (c := '—') _ hem]
    show String.mk (pyJoin (pySplit (normUsReplaced (norm_us s).data))) = norm_us s
    rw [hrepl, hdata, pySplit_pyJoin _ hws]
    rfl
  · intro s h hstrip
    have h1 : containsSub "No. ".data (norm_docket s).data = false :=
      containsSub_mono ⟨[' '], rfl⟩ _ h
    have hen := (norm_docket_no_dash s).1
    have hem := (norm_docket_no_dash s).2
    show String.mk (pyReplaceStr (pyReplaceStr (pyReplaceStr (pyReplaceStr
        (pyStrip (norm_docket s).data) "–".data "-".data) "—".data "-".data)
        "No. ".data "".data) "No.".data "".data) = norm_docket s
    rw [hstrip, pyReplaceStr_single_of_not_mem (c := '–') _ hen,
        pyReplaceStr_single_of_not_mem (c := '—') _ hem,
        pyReplaceStr_of_not_contains _ h1, pyReplaceStr_of_not_contains _ h]

/-- C5 witness: concrete inputs satisfying the amended hypotheses. -/
theorem C5_norm_idempotence_witness :
    norm_us (norm_us "524  U.S.  274") = norm_us "524  U.S.  274" ∧
    norm_docket (norm_docket " No. 14-10078 ") = norm_docket " No. 14-10078 " :=
  ⟨C5_norm_idempotence_amended.1 "524  U.S.  274" (by decide),
   C5_norm_idempotence_amended.2 " No. 14-10078 " (by decide) (by decide)⟩

/-- C8 counterexample: a leading "No" token without its period is NOT
removed (the replace patterns require the period), and a mid-string "No. "
IS removed (str.replace is not anchored to the start). -/
theorem C8_docket_norm_cex :
    norm_docket "No 14-10078" = "No 14-10078" ∧
    norm_docket "No 14-10078" ≠ "14-10078" ∧
    norm_docket "1No. 4" = "14" := by
  refine ⟨by decide, by decide, by decide⟩

/-- C8 amended: docket normalization trims, unifies dashes, and then removes
every occurrence of the literal substrings "No. " and "No." (period
required, anywhere in the string); on strings whose trimmed dash-unified
form contains no "No." it preserves every remaining character. -/
theorem C8_docket_norm_amended :
    norm_docket "No. 14-10078" = "14-10078" ∧
    norm_docket "No.14-10078" = "14-10078" ∧
    norm_docket "No 14-10078" = "No 14-10078" ∧
    norm_docket "x No. 14" = "x 14" ∧
    (∀ s : String,
      containsSub "No.".data
        (pyReplaceStr (pyReplaceStr (pyStrip s.data) "–".data "-".data) "—".data "-".data) =
          false →
      norm_docket s = String.mk
        (pyReplaceStr (pyReplaceStr (pyStrip s.data) "–".data "-".data) "—".data "-".data)) := by
  refine ⟨by decide, by decide, by decide, by decide, ?_⟩
  intro s h
  have h1 : containsSub "No. ".data
      (pyReplaceStr (pyReplaceStr (pyStrip s.data) "–".data "-".data) "—".data "-".data) =
        false :=
    containsSub_mono ⟨[' '], rfl⟩ _ h
  show String.mk (pyReplaceStr (pyReplaceStr (pyReplaceStr (pyReplaceStr (pyStrip s.data)
      "–".data "-".data) "—".data "-".data) "No. ".data "".data) "No.".data "".data) = _
  rw [pyReplaceStr_of_not_contains _ h1, pyReplaceStr_of_not_contains _ h]

/-- C8 witness: the general preservation clause at a letters-and-digits
docket. -/
theorem C8_docket_norm_witness :
    norm_docket "22O141" = String.mk
      (pyReplaceStr (pyReplaceStr (pyStrip "22O141".data) "–".data "-".data) "—".data "-".data) :=
  C8_docket_norm_amended.2.2.2.2 "22O141" (by decide)

/-- C6 counterexample: an all-caps "CITATIONS" key is not recognized (the
pattern fixes the trailing "itations" in lower case and has no IGNORECASE
flag), so the extraction result differs from the lower-case spelling. -/
theorem C6_case_key_cex :
    extract_us_cite_and_docket "|CITATIONS = 524 U.S. 274" ≠
      extract_us_cite_and_docket "|citations = 524 U.S. 274" := by
  decide

/-- C6 amended: field-key matching is case-sensitive except in specific
letters: the first letter of "citations" and "docket", and the letters
U, S, V / U, S, P of the volume and page keys; fully upper-cased keys are
not recognized. -/
theorem C6_case_key_amended :
    extract_us_cite_and_docket "|citations = 524 U.S. 274" = ("524 U.S. 274", "") ∧
    extract_us_cite_and_docket "|Citations = 524 U.S. 274" = ("524 U.S. 274", "") ∧
    extract_us_cite_and_docket "|CITATIONS = 524 U.S. 274" = ("", "") ∧
    extract_us_cite_and_docket "|USVol = 524\n|USPage = 274" = ("524 U.S. 274", "") ∧
    extract_us_cite_and_docket "|usvol = 524\n|uspage = 274" = ("524 U.S. 274", "") ∧
    extract_us_cite_and_docket "|USVOL = 524\n|USPAGE = 274" = ("", "") ∧
    extract_us_cite_and_docket "|docket = No. 14-10078" = ("", "14-10078") ∧
    extract_us_cite_and_docket "|Docket = No. 14-10078" = ("", "14-10078") ∧
    extract_us_cite_and_docket "|DOCKET = No. 14-10078" = ("", "") := by
  refine ⟨by decide, by decide, by decide, by decide, by decide, by decide, by decide,
    by decide, by decide⟩

/-- C2: when the citation step yields no match and the normalized docket key
maps to two or more external rows, the engine picks per the year policy:
the first year-filtered survivor when any survive (unique or not), else the
first of the full bucket; also the concrete two-row 2015/2016 scenario. -/
theorem C2_docket_tie_disambiguation :
    (∀ (scdb : List ScdbRow) (w : WikiRow),
      (is_placeholder_us (norm_us w.usCite) = true ∨
        scdb.filter (fun r => norm_us r.usCite ==
          (if is_placeholder_us (norm_us w.usCite) then "" else norm_us w.usCite)) = []) →
      norm_docket w.docket ≠ "" →
      2 ≤ (scdb.filter (fun r => norm_docket r.docket == norm_docket w.docket)).length →
      matchOne scdb w =
        (match get_wiki_year w with
         | some y =>
           if (scdb.filter (fun r => norm_docket r.docket == norm_docket w.docket)).filter
               (fun r => decisionYear r == some y) = [] then
             (scdb.filter (fun r => norm_docket r.docket == norm_docket w.docket)).head?
           else
             ((scdb.filter (fun r => norm_docket r.docket == norm_docket w.docket)).filter
               (fun r => decisionYear r == some y)).head?
         | none => (scdb.filter (fun r => norm_docket r.docket == norm_docket w.docket)).head?)) ∧
    runMatch [⟨"", "14-10078", "6/1/2015", "2015"⟩, ⟨"", "14-10078", "6/29/2016", "2016"⟩]
        [⟨"Foo v. Bar (2016)", "", "14-10078"⟩] =
      ([(⟨"Foo v. Bar (2016)", "", "14-10078"⟩, ⟨"", "14-10078", "6/29/2016", "2016"⟩)], []) := by
  constructor
  · intro scdb w hcite hdk hlen
    have hskip : ¬ ((if is_placeholder_us (norm_us w.usCite) then "" else norm_us w.usCite) ≠ "" ∧
        scdb.filter (fun r => norm_us r.usCite ==
          (if is_placeholder_us (norm_us w.usCite) then "" else norm_us w.usCite)) ≠ []) := by
      rcases hcite with hp | hf
      · rw [hp]
        simp
      · intro hc
        exact hc.2 hf
    have hbne : scdb.filter (fun r => norm_docket r.docket == norm_docket w.docket) ≠ [] := by
      intro h0
      rw [h0] at hlen
      simp at hlen
    have hlen1 : ¬ (scdb.filter (fun r => norm_docket r.docket ==
        norm_docket w.docket)).length = 1 := by omega
    simp only [matchOne]
    rw [if_neg hskip, if_pos ⟨hdk, hbne⟩, if_neg hlen1]
    cases hy : get_wiki_year w with
    | none => rfl
    | some y =>
      dsimp only
      by_cases hf : (scdb.filter (fun r => norm_docket r.docket ==
          norm_docket w.docket)).filter (fun r => decisionYear r == some y) = []
      · simp [hf]
      · have hl : 1 ≤ ((scdb.filter (fun r => norm_docket r.docket ==
            norm_docket w.docket)).filter (fun r => decisionYear r == some y)).length :=
          List.length_pos.mpr hf
        rw [if_neg hf]
        by_cases hl1 : ((scdb.filter (fun r => norm_docket r.docket ==
            norm_docket w.docket)).filter (fun r => decisionYear r == some y)).length = 1
        · rw [if_pos hl1]
        · rw [if_neg hl1, if_pos (by omega)]
  · decide

/-- C2 witness: the general clause applied at the concrete scenario. -/
theorem C2_docket_tie_witness :
    matchOne [⟨"", "14-10078", "6/1/2015", "2015"⟩, ⟨"", "14-10078", "6/29/2016", "2016"⟩]
        ⟨"Foo v. Bar (2016)", "", "14-10078"⟩ =
      some ⟨"", "14-10078", "6/29/2016", "2016"⟩ := by
  have h := C2_docket_tie_disambiguation.1
    [⟨"", "14-10078", "6/1/2015", "2015"⟩, ⟨"", "14-10078", "6/29/2016", "2016"⟩]
    ⟨"Foo v. Bar (2016)", "", "14-10078"⟩ (Or.inl (by decide)) (by decide) (by decide)
  rw [h]
  decide

theorem wsSkip_of_head_stop {cs : List Char}
    (h : ∀ c, cs.head? = some c → pyIsSpace c = false) : wsSkip cs = cs := by
  unfold wsSkip
  rw [tws_of_head_stop _ _ h]

theorem wsSkip_split {l r : List Char} (hl : l.all pyIsSpace = true)
    (hr : ∀ c, r.head? = some c → pyIsSpace c = false) : wsSkip (l ++ r) = r := by
  unfold wsSkip
  rw [tws_split_at _ _ _ hl hr]

theorem placeholderMatch_core (v tail : List Char) (hv : v ≠ [])
    (hvd : v.all Char.isDigit = true) :
    placeholderMatch (v ++ ' ' :: 'U' :: '.' :: 'S' :: '.' :: ' ' :: tail) =
      (wsSkip ((takeWhileSplit isPlaceholderPad (wsSkip (' ' :: tail))).2)).isEmpty := by
  obtain ⟨a, v', rfl⟩ : ∃ a v', v = a :: v' := by
    cases v with
    | nil => exact absurd rfl hv
    | cons a v' => exact ⟨a, v', rfl⟩
  have ha : a.isDigit = true := by
    simp only [List.all_cons, Bool.and_eq_true] at hvd
    exact hvd.1
  have e1 : wsSkip ((a :: v') ++ ' ' :: 'U' :: '.' :: 'S' :: '.' :: ' ' :: tail) =
      (a :: v') ++ ' ' :: 'U' :: '.' :: 'S' :: '.' :: ' ' :: tail := by
    refine wsSkip_of_head_stop ?_
    intro c hc
    rw [List.cons_append, List.head?_cons] at hc
    injection hc with hc
    subst hc
    exact isDigit_not_space ha
  have e2 : takeWhileSplit Char.isDigit
      ((a :: v') ++ ' ' :: 'U' :: '.' :: 'S' :: '.' :: ' ' :: tail) =
      (a :: v', ' ' :: 'U' :: '.' :: 'S' :: '.' :: ' ' :: tail) := by
    refine tws_split_at _ _ _ hvd ?_
    intro c hc
    rw [List.head?_cons] at hc
    injection hc with hc
    subst hc
    decide
  have e3 : wsSkip (' ' :: 'U' :: '.' :: 'S' :: '.' :: ' ' :: tail) =
      'U' :: '.' :: 'S' :: '.' :: ' ' :: tail := by
    refine wsSkip_split (l := [' ']) (by decide) ?_
    intro c hc
    rw [List.head?_cons] at hc
    injection hc with hc
    subst hc
    decide
  unfold placeholderMatch
  rw [e1]
  dsimp only
  rw [e2]
  dsimp only
  rw [if_neg (by simp)]
  rw [e3]
  rfl

/-- C7 counterexample: " _ _" (pad characters interleaved with whitespace)
satisfies the claim's "followed only by underscores/dashes and whitespace"
shape, yet the code's pattern — whitespace run, then pad run, then
whitespace run — rejects it. -/
theorem C7_placeholder_cex :
    specPlaceholderShape "592 U.S. _ _" = true ∧
    is_placeholder_us "592 U.S. _ _" = false := by
  constructor <;> decide

/-- C7 amended: the three classification examples hold, and in general a
"<digits> U.S. " prefix followed by one run of pad characters is a
placeholder while one followed by digits is not; the pad/whitespace suffix
must be a whitespace run, then a pad run, then a whitespace run, not an
arbitrary interleaving. -/
theorem C7_placeholder_amended :
    is_placeholder_us "" = true ∧
    is_placeholder_us "592 U.S. ___" = true ∧
    is_placeholder_us "524 U.S. 274" = false ∧
    (∀ v u : List Char, v ≠ [] → v.all Char.isDigit = true →
      u.all isPlaceholderPad = true →
      is_placeholder_us (String.mk (v ++ ' ' :: 'U' :: '.' :: 'S' :: '.' :: ' ' :: u)) = true) ∧
    (∀ v p : List Char, v ≠ [] → v.all Char.isDigit = true →
      p ≠ [] → p.all Char.isDigit = true →
      is_placeholder_us (String.mk (v ++ ' ' :: 'U' :: '.' :: 'S' :: '.' :: ' ' :: p)) = false) := by
  refine ⟨by decide, by decide, by decide, ?_, ?_⟩
  · intro v u hv hvd hu
    have hne : String.mk (v ++ ' ' :: 'U' :: '.' :: 'S' :: '.' :: ' ' :: u) ≠ "" := by
      cases v with
      | nil => exact absurd rfl hv
      | cons a v' => simp [String.ext_iff]
    unfold is_placeholder_us
    rw [if_neg hne]
    show placeholderMatch (v ++ ' ' :: 'U' :: '.' :: 'S' :: '.' :: ' ' :: u) = true
    rw [placeholderMatch_core v u hv hvd]
    have h7 : wsSkip (' ' :: u) = u := by
      refine wsSkip_split (l := [' ']) (by decide) ?_
      intro c hc
      cases u with
      | nil => simp at hc
      | cons b u' =>
        rw [List.head?_cons] at hc
        injection hc with hc
        subst hc
        refine pad_not_space ?_
        simp only [List.all_cons, Bool.and_eq_true] at hu
        exact hu.1
    rw [h7, tws_all_consume _ _ hu]
    rfl
  · intro v p hv hvd hp hpd
    obtain ⟨b, p', rfl⟩ : ∃ b p', p = b :: p' := by
      cases p with
      | nil => exact absurd rfl hp
      | cons b p' => exact ⟨b, p', rfl⟩
    have hb : b.isDigit = true := by
      simp only [List.all_cons, Bool.and_eq_true] at hpd
      exact hpd.1
    have hne : String.mk (v ++ ' ' :: 'U' :: '.' :: 'S' :: '.' :: ' ' :: b :: p') ≠ "" := by
      cases v with
      | nil => exact absurd rfl hv
      | cons a v' => simp [String.ext_iff]
    unfold is_placeholder_us
    rw [if_neg hne]
    show placeholderMatch (v ++ ' ' :: 'U' :: '.' :: 'S' :: '.' :: ' ' :: b :: p') = false
    rw [placeholderMatch_core v _ hv hvd]
    have h7 : wsSkip (' ' :: b :: p') = b :: p' := by
      refine wsSkip_split (l := [' ']) (by decide) ?_
      intro c hc
      rw [List.head?_cons] at hc
      injection hc with hc
      subst hc
      exact isDigit_not_space hb
    rw [h7]
    have h8 : takeWhileSplit isPlaceholderPad (b :: p') = ([], b :: p') := by
      refine tws_of_head_stop _ _ ?_
      intro c hc
      rw [List.head?_cons] at hc
      injection hc with hc
      subst hc
      exact isDigit_not_pad hb
    rw [h8]
    have h9 : wsSkip (b :: p') = b :: p' := by
      refine wsSkip_of_head_stop ?_
      intro c hc
      rw [List.head?_cons] at hc
      injection hc with hc
      subst hc
      exact isDigit_not_space hb
    show (wsSkip (b :: p')).isEmpty = false
    rw [h9]
    rfl

/-- C7 witness: the general clauses at "592 U.S. ___" and "524 U.S. 274"
assembled from their pieces. -/
theorem C7_placeholder_witness :
    is_placeholder_us
        (String.mk ("592".data ++ ' ' :: 'U' :: '.' :: 'S' :: '.' :: ' ' :: "___".data)) = true ∧
    is_placeholder_us
        (String.mk ("524".data ++ ' ' :: 'U' :: '.' :: 'S' :: '.' :: ' ' :: "274".data)) = false :=
  ⟨C7_placeholder_amended.2.2.2.1 "592".data "___".data (by decide) (by decide) (by decide),
   C7_placeholder_amended.2.2.2.2 "524".data "274".data (by decide) (by decide) (by decide)
     (by decide)⟩

/-- C4: extract is a total function (by construction in this embedding);
when every pattern attempt for a field fails the field is the empty string,
independently per field, so a text with no recognizable citation or docket
field yields ("", ""). -/
theorem C4_total_extraction :
    ∀ box : String,
      ((∀ field, citationsFieldSearch (clean_markup box).data = some field →
          searchUSCite false field = none) →
        (usVolSearch (clean_markup box).data = none ∨
          usPageSearch (clean_markup box).data = none) →
        (extract_us_cite_and_docket box).1 = "") ∧
      ((∀ field, citationsFieldSearch (clean_markup box).data = some field →
          searchDocket false field = none) →
        (∀ rhs, docketLineSearch (clean_markup box).data = some rhs →
          searchDocket false rhs = none) →
        (extract_us_cite_and_docket box).2 = "") := by
  intro box
  constructor
  · intro hcit hvol
    have hus0 : (match citationsFieldSearch (clean_markup box).data with
        | some field =>
          match searchUSCite false field with
          | some g => g
          | none => []
        | none => ([] : List Char)) = [] := by
      cases hc : citationsFieldSearch (clean_markup box).data with
      | none => rfl
      | some field =>
        dsimp only
        rw [hcit field hc]
    have hvp : (match usVolSearch (clean_markup box).data,
        usPageSearch (clean_markup box).data with
        | some v, some p => v ++ " U.S. ".data ++ p
        | _, _ => ([] : List Char)) = [] := by
      rcases hvol with hv | hp
      · rw [hv]
      · rw [hp]
        cases usVolSearch (clean_markup box).data <;> rfl
    show (String.mk (pyStrip (if _ = ([] : List Char) then _ else _)), _).1 = ""
    rw [hus0]
    rw [if_pos rfl]
    rw [hvp]
    rfl
  · intro hcit hline
    have hdk0 : (match citationsFieldSearch (clean_markup box).data with
        | some field =>
          match searchDocket false field with
          | some g => g
          | none => []
        | none => ([] : List Char)) = [] := by
      cases hc : citationsFieldSearch (clean_markup box).data with
      | none => rfl
      | some field =>
        dsimp only
        rw [hcit field hc]
    have hdl : (match docketLineSearch (clean_markup box).data with
        | some rhs =>
          match searchDocket false rhs with
          | some g => g
          | none => []
        | none => ([] : List Char)) = [] := by
      cases hd : docketLineSearch (clean_markup box).data with
      | none => rfl
      | some rhs =>
        dsimp only
        rw [hline rhs hd]
    show (_, String.mk (pyStrip (pyReplaceStr (pyReplaceStr
        (if _ = ([] : List Char) then _ else _) _ _) _ _))).2 = ""
    rw [hdk0]
    rw [if_pos rfl]
    rw [hdl]
    rfl

/-- C4 witness: a text with no fields at all extracts to a pair of empty
strings. -/
theorem C4_total_extraction_witness :
    extract_us_cite_and_docket "hello" = ("", "") := by
  have h1 := (C4_total_extraction "hello").1
    (by
      intro field hf
      rw [show citationsFieldSearch (clean_markup "hello").data = none from by decide] at hf
      exact absurd hf (by simp))
    (Or.inl (by decide))
  have h2 := (C4_total_extraction "hello").2
    (by
      intro field hf
      rw [show citationsFieldSearch (clean_markup "hello").data = none from by decide] at hf
      exact absurd hf (by simp))
    (by
      intro rhs hr
      rw [show docketLineSearch (clean_markup "hello").data = none from by decide] at hr
      exact absurd hr (by simp))
  exact Prod.ext h1 h2

/-! ## Docket token shape lemmas (C9) -/

theorem docketGroupAt_shape {cs g : List Char} (h : docketGroupAt cs = some g) :
    ∃ a c b, g = a ++ c :: b ∧ a ≠ [] ∧ a.length ≤ 3 ∧ a.all Char.isDigit = true ∧
      c.isDigit = false ∧ b ≠ [] ∧ b.all Char.isDigit = true ∧
      ((isDocketDash c = true ∧ b.length ≤ 5) ∨
        (c.isAlpha = true ∧ isDocketDash c = false ∧ b.length ≤ 4)) := by
  have ha_all : (takeWhileSplit Char.isDigit cs).1.all Char.isDigit = true := tws_all _ _
  unfold docketGroupAt at h
  dsimp only at h
  split at h
  · exact absurd h (by simp)
  · rename_i hcond
    push_neg at hcond
    split at h
    · rename_i c r2 hr
      have hc_digit : c.isDigit = false := tws_rest_head Char.isDigit cs hr
      have hb_all : (takeWhileSplit Char.isDigit r2).1.all Char.isDigit = true := tws_all _ _
      split at h
      · -- dash branch
        rename_i hdash
        split at h
        · exact absurd h (by simp)
        · rename_i hbcond
          push_neg at hbcond
          split at h
          · injection h with h
            exact ⟨_, c, _, h.symm, hcond.1, hcond.2, ha_all, hc_digit, hbcond.1,
              hb_all, Or.inl ⟨hdash, hbcond.2⟩⟩
          · exact absurd h (by simp)
      · split at h
        · -- letter branch
          rename_i hdash halpha
          split at h
          · exact absurd h (by simp)
          · rename_i hbcond
            push_neg at hbcond
            split at h
            · injection h with h
              exact ⟨_, c, _, h.symm, hcond.1, hcond.2, ha_all, hc_digit, hbcond.1,
                hb_all, Or.inr ⟨halpha, by simpa using hdash, hbcond.2⟩⟩
            · exact absurd h (by simp)
        · exact absurd h (by simp)
    · exact absurd h (by simp)

theorem docketMatchAt_shape {pw : Bool} {cs g : List Char} (h : docketMatchAt pw cs = some g) :
    ∃ a c b, g = a ++ c :: b ∧ a ≠ [] ∧ a.length ≤ 3 ∧ a.all Char.isDigit = true ∧
      c.isDigit = false ∧ b ≠ [] ∧ b.all Char.isDigit = true ∧
      ((isDocketDash c = true ∧ b.length ≤ 5) ∨
        (c.isAlpha = true ∧ isDocketDash c = false ∧ b.length ≤ 4)) := by
  unfold docketMatchAt at h
  split at h
  · exact absurd h (by simp)
  · split at h
    · rename_i c1 c2 rest
      split at h
      · split at h
        · rename_i g2 hg2
          injection h with h
          subst h
          exact docketGroupAt_shape hg2
        · exact docketGroupAt_shape h
      · exact docketGroupAt_shape h
    · exact docketGroupAt_shape h

theorem searchDocket_shape :
    ∀ (cs : List Char) (pw : Bool) (g : List Char), searchDocket pw cs = some g →
      ∃ a c b, g = a ++ c :: b ∧ a ≠ [] ∧ a.length ≤ 3 ∧ a.all Char.isDigit = true ∧
        c.isDigit = false ∧ b ≠ [] ∧ b.all Char.isDigit = true ∧
        ((isDocketDash c = true ∧ b.length ≤ 5) ∨
          (c.isAlpha = true ∧ isDocketDash c = false ∧ b.length ≤ 4)) := by
  intro cs
  induction cs with
  | nil =>
    intro pw g h
    simp [searchDocket] at h
  | cons c rest ih =>
    intro pw g h
    unfold searchDocket at h
    split at h
    · rename_i g2 hg2
      injection h with h
      subst h
      exact docketMatchAt_shape hg2
    · exact ih _ g h

theorem digits_map_dashsub (p : Char) (hp : p.isDigit = false) {a : List Char}
    (h : a.all Char.isDigit = true) :
    a.map (fun c => if c = p then '-' else c) = a := by
  have : ∀ x ∈ a, (if x = p then '-' else x) = id x := by
    intro x hx
    have hxd := List.all_eq_true.mp h x hx
    rw [if_neg (by intro he; rw [he, hp] at hxd; exact absurd hxd (by decide)), id]
  rw [List.map_congr_left this, List.map_id]

theorem not_dash_elim {c : Char} (h : isDocketDash c = false) :
    c ≠ '-' ∧ c ≠ '–' ∧ c ≠ '—' := by
  simp only [isDocketDash, Bool.or_eq_false_iff, beq_eq_false_iff_ne, ne_eq] at h
  exact ⟨h.1.1, h.1.2, h.2⟩

theorem dashsub_dash {c : Char} (h : isDocketDash c = true) :
    (if (if c = '–' then '-' else c) = '—' then '-' else if c = '–' then '-' else c) = '-' := by
  simp only [isDocketDash, Bool.or_eq_true, beq_iff_eq] at h
  rcases h with (h | h) | h <;> subst h <;> decide

theorem pyStrip_digit_ends {a b : List Char} {c : Char} (ha : a ≠ [])
    (had : a.all Char.isDigit = true) (hb : b ≠ []) (hbd : b.all Char.isDigit = true) :
    pyStrip (a ++ c :: b) = a ++ c :: b := by
  refine pyStrip_eq_self ?_ ?_
  · intro ch hch
    obtain ⟨a0, a', rfl⟩ : ∃ a0 a', a = a0 :: a' := by
      cases a with
      | nil => exact absurd rfl ha
      | cons a0 a' => exact ⟨a0, a', rfl⟩
    rw [List.cons_append, List.head?_cons] at hch
    injection hch with hch
    subst hch
    refine isDigit_not_space ?_
    simp only [List.all_cons, Bool.and_eq_true] at had
    exact had.1
  · intro ch hch
    rw [List.getLast?_append_cons] at hch
    obtain ⟨b0, b', rfl⟩ : ∃ b0 b', b = b0 :: b' := by
      cases b with
      | nil => exact absurd rfl hb
      | cons b0 b' => exact ⟨b0, b', rfl⟩
    rw [List.getLast?_cons_cons] at hch
    have hmem : ch ∈ b0 :: b' := List.mem_of_mem_getLast? (Option.mem_def.mpr hch)
    exact isDigit_not_space (List.all_eq_true.mp hbd ch hmem)

theorem amendedDocketShape_eval {a b : List Char} {c : Char} (ha : a ≠ [])
    (ha3 : a.length ≤ 3) (had : a.all Char.isDigit = true) (hcd : c.isDigit = false)
    (hb : b ≠ []) (hbd : b.all Char.isDigit = true)
    (halt : (c = '-' ∧ b.length ≤ 5) ∨ (c.isAlpha = true ∧ c ≠ '-' ∧ b.length ≤ 4)) :
    amendedDocketShape (String.mk (a ++ c :: b)) = true := by
  unfold amendedDocketShape
  dsimp only
  have e1 : takeWhileSplit Char.isDigit (a ++ c :: b) = (a, c :: b) := by
    refine tws_split_at _ _ _ had ?_
    intro ch hch
    rw [List.head?_cons] at hch
    injection hch with hch
    subst hch
    exact hcd
  rw [e1]
  dsimp only
  rw [if_neg (not_or.mpr ⟨ha, by omega⟩)]
  rw [tws_all_consume _ _ hbd]
  rw [if_neg (by simp [hb])]
  rcases halt with ⟨hc, hble⟩ | ⟨halpha, hnh, hble⟩
  · subst hc
    rw [if_pos rfl]
    exact decide_eq_true hble
  · rw [if_neg hnh, if_pos halpha]
    exact decide_eq_true hble

/-- C9 amended: a non-empty docket returned by extract was matched by
DOCKET_TOKEN_RE, whose letter alternative is applied case-insensitively, so
the docket has the shape digits(1-3) '-' digits(1-5) — dash variants already
replaced by an ASCII hyphen — or digits(1-3), one letter of either case,
digits(1-4). -/
theorem C9_docket_shape_amended :
    ∀ box : String, (extract_us_cite_and_docket box).2 ≠ "" →
      amendedDocketShape (extract_us_cite_and_docket box).2 = true := by
  intro box hne
  have key : ∃ dk1 : List Char,
      (extract_us_cite_and_docket box).2 =
        String.mk (pyStrip (pyReplaceStr (pyReplaceStr dk1 "–".data "-".data)
          "—".data "-".data)) ∧
      (dk1 = [] ∨ ∃ src, searchDocket false src = some dk1) := by
    cases hc : citationsFieldSearch (clean_markup box).data with
    | none =>
      cases hd : docketLineSearch (clean_markup box).data with
      | none => exact ⟨[], by simp [extract_us_cite_and_docket, hc, hd], Or.inl rfl⟩
      | some rhs =>
        cases hs : searchDocket false rhs with
        | none => exact ⟨[], by simp [extract_us_cite_and_docket, hc, hd, hs], Or.inl rfl⟩
        | some g => exact ⟨g, by simp [extract_us_cite_and_docket, hc, hd, hs], Or.inr ⟨rhs, hs⟩⟩
    | some field =>
      cases hf : searchDocket false field with
      | none =>
        cases hd : docketLineSearch (clean_markup box).data with
        | none => exact ⟨[], by simp [extract_us_cite_and_docket, hc, hf, hd], Or.inl rfl⟩
        | some rhs =>
          cases hs : searchDocket false rhs with
          | none => exact ⟨[], by simp [extract_us_cite_and_docket, hc, hf, hd, hs], Or.inl rfl⟩
          | some g =>
            exact ⟨g, by simp [extract_us_cite_and_docket, hc, hf, hd, hs], Or.inr ⟨rhs, hs⟩⟩
      | some g =>
        by_cases hg : g = []
        · subst hg
          cases hd : docketLineSearch (clean_markup box).data with
          | none => exact ⟨[], by simp [extract_us_cite_and_docket, hc, hf, hd], Or.inl rfl⟩
          | some rhs =>
            cases hs : searchDocket false rhs with
            | none =>
              exact ⟨[], by simp [extract_us_cite_and_docket, hc, hf, hd, hs], Or.inl rfl⟩
            | some g2 =>
              exact ⟨g2, by simp [extract_us_cite_and_docket, hc, hf, hd, hs],
                Or.inr ⟨rhs, hs⟩⟩
        · exact ⟨g, by simp [extract_us_cite_and_docket, hc, hf, hg], Or.inr ⟨field, hf⟩⟩
  obtain ⟨dk1, heq, hcase⟩ := key
  rcases hcase with rfl | ⟨src, hs⟩
  · exfalso
    apply hne
    rw [heq]
    rfl
  · rw [heq]
    obtain ⟨a, c, b, hg, ha, ha3, had, hcd, hb, hbd, halt⟩ := searchDocket_shape src false dk1 hs
    subst hg
    rw [show pyReplaceStr (a ++ c :: b) "–".data "-".data =
        (a ++ c :: b).map (fun x => if x = '–' then '-' else x) from
      pyReplaceAux_single_map '–' '-' _ _ (le_refl _)]
    rw [show pyReplaceStr ((a ++ c :: b).map (fun x => if x = '–' then '-' else x))
        "—".data "-".data =
        ((a ++ c :: b).map (fun x => if x = '–' then '-' else x)).map
          (fun x => if x = '—' then '-' else x) from
      pyReplaceAux_single_map '—' '-' _ _ (le_refl _)]
    rw [List.map_append, List.map_cons, List.map_append, List.map_cons]
    rw [digits_map_dashsub '–' (by decide) had, digits_map_dashsub '–' (by decide) hbd,
        digits_map_dashsub '—' (by decide) had, digits_map_dashsub '—' (by decide) hbd]
    rcases halt with ⟨hdash, hble⟩ | ⟨halpha, hndash, hble⟩
    · rw [dashsub_dash hdash]
      rw [pyStrip_digit_ends ha had hb hbd]
      exact amendedDocketShape_eval ha ha3 had (by decide) hb hbd (Or.inl ⟨rfl, hble⟩)
    · obtain ⟨hc1, h2, h3⟩ := not_dash_elim hndash
      rw [show (if (if c = '–' then '-' else c) = '—' then '-' else if c = '–' then '-' else c)
          = c from by rw [if_neg h2, if_neg h3]]
      rw [pyStrip_digit_ends ha had hb hbd]
      exact amendedDocketShape_eval ha ha3 had hcd hb hbd (Or.inr ⟨halpha, hc1, hble⟩)

/-- C9 counterexample: the letter alternative of DOCKET_TOKEN_RE is applied
with IGNORECASE, so extract returns "7a123" with a lower-case letter, which
does not fit the claim's "one uppercase letter" token shape. -/
theorem C9_docket_shape_cex :
    (extract_us_cite_and_docket "|docket = 7a123").2 = "7a123" ∧
    claimDocketShape "7a123" = false ∧
    amendedDocketShape "7a123" = true := by
  refine ⟨by decide, by decide, by decide⟩

/-- C9 witness: the amended shape theorem at a concrete docket line. -/
theorem C9_docket_shape_witness :
    amendedDocketShape (extract_us_cite_and_docket "|docket = No. 14-10078").2 = true :=
  C9_docket_shape_amended "|docket = No. 14-10078" (by decide)

/-! ## Markup cleaner lemmas (C10) -/

theorem subScan_id (tm : List Char → Option (List Char × List Char)) :
    ∀ (fuel : Nat) (cs : List Char), (∀ l2, l2 <:+ cs → tm l2 = none) →
      subScan tm fuel cs = cs := by
  intro fuel
  induction fuel with
  | zero =>
    intro cs _
    cases cs <;> rfl
  | succ n ih =>
    intro cs h
    cases cs with
    | nil => rfl
    | cons ch rest =>
      show (match tm (ch :: rest) with
        | some x => x.1 ++ subScan tm n x.2
        | none => ch :: subScan tm n rest) = ch :: rest
      rw [h (ch :: rest) (List.suffix_refl _)]
      rw [ih rest (fun l2 hl2 => h l2 (hl2.trans (List.suffix_cons ch rest)))]

theorem matchHttpColon_colon {cs r : List Char} (h : matchHttpColon cs = some r) :
    ':' ∈ cs := by
  unfold matchHttpColon at h
  split at h
  · simp
  · simp
  · exact absurd h (by simp)

theorem extLinkAt_colon {cs : List Char} {x : List Char × List Char}
    (h : extLinkAt cs = some x) : ':' ∈ cs := by
  unfold extLinkAt at h
  split at h
  · rename_i rest
    cases hm : matchHttpColon rest with
    | none =>
      rw [hm] at h
      exact absurd h (by simp)
    | some r =>
      have := matchHttpColon_colon hm
      simp [this]
  · exact absurd h (by simp)

theorem tagAt_lt {cs : List Char} {x : List Char × List Char}
    (h : tagAt cs = some x) : '<' ∈ cs := by
  unfold tagAt at h
  split at h
  · simp
  · exact absurd h (by simp)

theorem subScan_extLink_id {cs : List Char} (h : ':' ∉ cs) (fuel : Nat) :
    subScan extLinkAt fuel cs = cs :=
  subScan_id _ fuel cs (fun l2 hl2 => by
    cases he : extLinkAt l2 with
    | none => rfl
    | some x => exact absurd (hl2.subset (extLinkAt_colon he)) h)

theorem subScan_tag_id {cs : List Char} (h : '<' ∉ cs) (fuel : Nat) :
    subScan tagAt fuel cs = cs :=
  subScan_id _ fuel cs (fun l2 hl2 => by
    cases he : tagAt l2 with
    | none => rfl
    | some x => exact absurd (hl2.subset (tagAt_lt he)) h)

theorem wikiLinkBody_multipipe {b c : List Char}
    (hb : ∀ ch ∈ b, ch ≠ ']') (hc : ∀ ch ∈ c, ch ≠ ']') :
    wikiLinkBody (b ++ '|' :: (c ++ [']', ']'])) = some (b ++ '|' :: c, []) := by
  unfold wikiLinkBody
  have htws : takeWhileSplit (fun ch => ch != ']') (b ++ '|' :: (c ++ [']', ']'])) =
      (b ++ '|' :: c, [']', ']']) := by
    have heq : (b ++ '|' :: c) ++ [']', ']'] = b ++ '|' :: (c ++ [']', ']']) := by
      simp [List.append_assoc]
    rw [← heq]
    refine tws_split_at _ _ _ ?_ ?_
    · refine List.all_eq_true.mpr ?_
      intro ch hch
      rcases List.mem_append.mp hch with h1 | h1
      · simpa using hb ch h1
      · rcases List.mem_cons.mp h1 with h2 | h2
        · subst h2
          decide
        · simpa using hc ch h2
    · intro ch hch
      rw [List.head?_cons] at hch
      injection hch with hch
      subst hch
      decide
  rw [htws]
  have hne : b ++ '|' :: c ≠ [] := by simp
  show (if b ++ '|' :: c = [] then none
    else some (b ++ '|' :: c, ([] : List Char))) = some (b ++ '|' :: c, [])
  rw [if_neg hne]

theorem wikiLinkAt_multipipe {a b c : List Char} (ha : a ≠ [])
    (haC : ∀ ch ∈ a, ch ≠ ']' ∧ ch ≠ '|')
    (hb : ∀ ch ∈ b, ch ≠ ']') (hc : ∀ ch ∈ c, ch ≠ ']') :
    wikiLinkAt ('[' :: '[' :: (a ++ '|' :: (b ++ '|' :: (c ++ [']', ']'])))) =
      some (b ++ '|' :: c, []) := by
  unfold wikiLinkAt
  have htws : takeWhileSplit (fun ch => ch != ']' && ch != '|')
      (a ++ '|' :: (b ++ '|' :: (c ++ [']', ']']))) =
      (a, '|' :: (b ++ '|' :: (c ++ [']', ']']))) := by
    refine tws_split_at _ _ _ ?_ ?_
    · refine List.all_eq_true.mpr ?_
      intro ch hch
      have := haC ch hch
      simp [this.1, this.2]
    · intro ch hch
      rw [List.head?_cons] at hch
      injection hch with hch
      subst hch
      decide
  show (match (takeWhileSplit (fun ch => ch != ']' && ch != '|')
      (a ++ '|' :: (b ++ '|' :: (c ++ [']', ']'])))).2 with
    | '|' :: afterPipe =>
      if (takeWhileSplit (fun ch => ch != ']' && ch != '|')
          (a ++ '|' :: (b ++ '|' :: (c ++ [']', ']'])))).1 ≠ [] then
        match wikiLinkBody afterPipe with
        | some x => some x
        | none => wikiLinkBody (a ++ '|' :: (b ++ '|' :: (c ++ [']', ']'])))
      else wikiLinkBody (a ++ '|' :: (b ++ '|' :: (c ++ [']', ']'])))
    | _ => wikiLinkBody (a ++ '|' :: (b ++ '|' :: (c ++ [']', ']'])))) =
      some (b ++ '|' :: c, [])
  rw [htws]
  show (if a ≠ [] then
      match wikiLinkBody (b ++ '|' :: (c ++ [']', ']'])) with
      | some x => some x
      | none => wikiLinkBody (a ++ '|' :: (b ++ '|' :: (c ++ [']', ']'])))
    else wikiLinkBody (a ++ '|' :: (b ++ '|' :: (c ++ [']', ']'])))) =
      some (b ++ '|' :: c, [])
  rw [if_pos ha]
  rw [wikiLinkBody_multipipe hb hc]

/-- C10: a wiki link with two or more pipes collapses to everything after
the FIRST pipe, pipes included (group 2 of the pattern is the maximal
bracket-free run); shown in general for pipe-free bracket-free targets and
bracket-free labels over plain text, and at the concrete example. -/
theorem C10_wikilink_multipipe :
    (∀ a b c : List Char, a ≠ [] →
      (∀ ch ∈ a, ch ≠ ']' ∧ ch ≠ '|' ∧ ch ≠ ':' ∧ ch ≠ '<') →
      (∀ ch ∈ b, ch ≠ ']' ∧ ch ≠ ':' ∧ ch ≠ '<') →
      (∀ ch ∈ c, ch ≠ ']' ∧ ch ≠ ':' ∧ ch ≠ '<') →
      clean_markup (String.mk ('[' :: '[' :: (a ++ '|' :: (b ++ '|' :: (c ++ [']', ']']))))) =
        String.mk (b ++ '|' :: c)) ∧
    clean_markup "[[target|labelA|labelB]]" = "labelA|labelB" := by
  constructor
  · intro a b c ha haC hbC hcC
    have hcolon : ':' ∉ '[' :: '[' :: (a ++ '|' :: (b ++ '|' :: (c ++ [']', ']']))) := by
      intro hmem
      simp only [List.mem_cons, List.mem_append] at hmem
      rcases hmem with h1 | h1 | h1 | h1 | h1 | h1 | h1
      · exact absurd h1 (by decide)
      · exact absurd h1 (by decide)
      · exact (haC ':' h1).2.2.1 rfl
      · exact absurd h1 (by decide)
      · exact (hbC ':' h1).2.1 rfl
      · exact absurd h1 (by decide)
      · rcases h1 with h2 | h2 | h2 | h2
        · exact (hcC ':' h2).2.1 rfl
        · exact absurd h2 (by decide)
        · exact absurd h2 (by decide)
        · simp at h2
    have hlt : '<' ∉ b ++ '|' :: c := by
      intro hmem
      rcases List.mem_append.mp hmem with h1 | h1
      · exact (hbC '<' h1).2.2 rfl
      · rcases List.mem_cons.mp h1 with h2 | h2
        · exact absurd h2 (by decide)
        · exact (hcC '<' h2).2.2 rfl
    unfold clean_markup
    rw [show (String.mk ('[' :: '[' :: (a ++ '|' :: (b ++ '|' :: (c ++ [']', ']']))))).data =
        '[' :: '[' :: (a ++ '|' :: (b ++ '|' :: (c ++ [']', ']']))) from rfl]
    rw [subScan_extLink_id hcolon]
    have hstep : subScan wikiLinkAt
        ('[' :: '[' :: (a ++ '|' :: (b ++ '|' :: (c ++ [']', ']'])))).length
        ('[' :: '[' :: (a ++ '|' :: (b ++ '|' :: (c ++ [']', ']'])))) = b ++ '|' :: c := by
      rw [show ('[' :: '[' :: (a ++ '|' :: (b ++ '|' :: (c ++ [']', ']'])))).length =
          ('[' :: (a ++ '|' :: (b ++ '|' :: (c ++ [']', ']'])))).length + 1 from rfl]
      show (match wikiLinkAt ('[' :: '[' :: (a ++ '|' :: (b ++ '|' :: (c ++ [']', ']'])))) with
        | some x => x.1 ++ subScan wikiLinkAt
            ('[' :: (a ++ '|' :: (b ++ '|' :: (c ++ [']', ']'])))).length x.2
        | none => '[' :: subScan wikiLinkAt
            ('[' :: (a ++ '|' :: (b ++ '|' :: (c ++ [']', ']'])))).length
            ('[' :: (a ++ '|' :: (b ++ '|' :: (c ++ [']', ']']))))) = b ++ '|' :: c
      rw [wikiLinkAt_multipipe ha (fun ch hch => ⟨(haC ch hch).1, (haC ch hch).2.1⟩)
          (fun ch hch => (hbC ch hch).1) (fun ch hch => (hcC ch hch).1)]
      dsimp only
      rw [show subScan wikiLinkAt
          ('[' :: (a ++ '|' :: (b ++ '|' :: (c ++ [']', ']'])))).length ([] : List Char) = []
          from by cases h : ('[' :: (a ++ '|' :: (b ++ '|' :: (c ++ [']', ']'])))).length <;> rfl]
      simp
    dsimp only
    rw [hstep]
    rw [subScan_tag_id hlt]
  · decide

/-- C10 witness: the general clause at the concrete target and labels. -/
theorem C10_wikilink_witness :
    clean_markup (String.mk ('[' :: '[' :: ("target".data ++ '|' ::
        ("labelA".data ++ '|' :: ("labelB".data ++ [']', ']']))))) =
      String.mk ("labelA".data ++ '|' :: "labelB".data) :=
  C10_wikilink_multipipe.1 "target".data "labelA".data "labelB".data
    (by decide) (by decide) (by decide) (by decide)

/-! ## Template scanner lemmas (C3) -/

theorem scanFrom_spec :
    ∀ (fuel : Nat) (cs : List Char) (d : Int) (n : Nat), cs.length ≤ fuel → 1 ≤ d →
      scanFrom cs d = some n →
      2 ≤ n ∧ braceDepth (cs.take n) d = 0 ∧ ∃ pre, cs.take n = pre ++ ['}', '}'] := by
  intro fuel
  induction fuel with
  | zero =>
    intro cs d n hlen hd h
    have hnil : cs = [] := List.length_eq_zero.mp (Nat.le_zero.mp hlen)
    subst hnil
    simp [scanFrom] at h
  | succ N ih =>
    intro cs d n hlen hd h
    cases cs with
    | nil => simp [scanFrom] at h
    | cons c1 tl =>
      cases tl with
      | nil => simp [scanFrom] at h
      | cons c2 rest =>
        simp only [List.length_cons] at hlen
        have hr : rest.length ≤ N := by omega
        have hr2 : (c2 :: rest).length ≤ N := by
          simp only [List.length_cons]
          omega
        have hform : scanFrom (c1 :: c2 :: rest) d =
            (if c1 = '{' ∧ c2 = '{' then (scanFrom rest (d + 1)).map (· + 2)
             else if c1 = '}' ∧ c2 = '}' then
               (if d - 1 ≤ 0 then some 2 else (scanFrom rest (d - 1)).map (· + 2))
             else (scanFrom (c2 :: rest) d).map (· + 1)) := rfl
        rw [hform] at h
        by_cases h1 : c1 = '{' ∧ c2 = '{'
        · rw [if_pos h1] at h
          obtain ⟨m, hm, hn⟩ := Option.map_eq_some'.mp h
          obtain ⟨h2m, hbd, pre, hpre⟩ := ih rest (d + 1) m hr (by omega) hm
          obtain ⟨hc1, hc2⟩ := h1
          subst hc1
          subst hc2
          subst hn
          refine ⟨by omega, ?_, '{' :: '{' :: pre, ?_⟩
          · show braceDepth (('{' :: '{' :: rest).take (m + 1 + 1)) d = 0
            rw [List.take_succ_cons, List.take_succ_cons]
            show braceDepth (rest.take m) (d + 1) = 0
            exact hbd
          · show ('{' :: '{' :: rest).take (m + 1 + 1) = '{' :: '{' :: pre ++ ['}', '}']
            rw [List.take_succ_cons, List.take_succ_cons, hpre]
            rfl
        · rw [if_neg h1] at h
          by_cases h2 : c1 = '}' ∧ c2 = '}'
          · rw [if_pos h2] at h
            by_cases hd0 : d - 1 ≤ 0
            · rw [if_pos hd0] at h
              injection h with h
              subst h
              obtain ⟨hc1, hc2⟩ := h2
              subst hc1
              subst hc2
              have hd1 : d = 1 := by omega
              subst hd1
              refine ⟨le_refl 2, ?_, [], ?_⟩
              · show braceDepth (('}' :: '}' :: rest).take 2) 1 = 0
                rw [show (('}' :: '}' :: rest).take 2) = ['}', '}'] from rfl]
                decide
              · rfl
            · rw [if_neg hd0] at h
              obtain ⟨m, hm, hn⟩ := Option.map_eq_some'.mp h
              obtain ⟨h2m, hbd, pre, hpre⟩ := ih rest (d - 1) m hr (by omega) hm
              obtain ⟨hc1, hc2⟩ := h2
              subst hc1
              subst hc2
              subst hn
              refine ⟨by omega, ?_, '}' :: '}' :: pre, ?_⟩
              · show braceDepth (('}' :: '}' :: rest).take (m + 1 + 1)) d = 0
                rw [List.take_succ_cons, List.take_succ_cons]
                show braceDepth (rest.take m) (d - 1) = 0
                exact hbd
              · show ('}' :: '}' :: rest).take (m + 1 + 1) = '}' :: '}' :: pre ++ ['}', '}']
                rw [List.take_succ_cons, List.take_succ_cons, hpre]
                rfl
          · rw [if_neg h2] at h
            obtain ⟨m, hm, hn⟩ := Option.map_eq_some'.mp h
            obtain ⟨h2m, hbd, pre, hpre⟩ := ih (c2 :: rest) d m hr2 hd hm
            subst hn
            obtain ⟨m', rfl⟩ : ∃ m', m = m' + 1 := ⟨m - 1, by omega⟩
            refine ⟨by omega, ?_, c1 :: pre, ?_⟩
            · show braceDepth ((c1 :: c2 :: rest).take (m' + 1 + 1)) d = 0
              rw [List.take_succ_cons, List.take_succ_cons]
              rw [show braceDepth (c1 :: c2 :: rest.take m') d =
                  braceDepth (c2 :: rest.take m') d from by
                show (if c1 = '{' ∧ c2 = '{' then braceDepth (rest.take m') (d + 1)
                  else if c1 = '}' ∧ c2 = '}' then braceDepth (rest.take m') (d - 1)
                  else braceDepth (c2 :: rest.take m') d) = braceDepth (c2 :: rest.take m') d
                rw [if_neg h1, if_neg h2]]
              rw [List.take_succ_cons] at hbd
              exact hbd
            · show (c1 :: c2 :: rest).take (m' + 1 + 1) = (c1 :: pre) ++ ['}', '}']
              rw [List.take_succ_cons]
              rw [hpre]
              rfl

theorem scanFrom_none :
    ∀ (fuel : Nat) (cs : List Char) (d : Int), cs.length ≤ fuel →
      (∀ n : Nat, 1 ≤ braceDepth (cs.take n) d) → scanFrom cs d = none := by
  intro fuel
  induction fuel with
  | zero =>
    intro cs d hlen _
    have hnil : cs = [] := List.length_eq_zero.mp (Nat.le_zero.mp hlen)
    subst hnil
    rfl
  | succ N ih =>
    intro cs d hlen hnc
    cases cs with
    | nil => rfl
    | cons c1 tl =>
      cases tl with
      | nil => rfl
      | cons c2 rest =>
        simp only [List.length_cons] at hlen
        have hr : rest.length ≤ N := by omega
        have hr2 : (c2 :: rest).length ≤ N := by
          simp only [List.length_cons]
          omega
        have hform : scanFrom (c1 :: c2 :: rest) d =
            (if c1 = '{' ∧ c2 = '{' then (scanFrom rest (d + 1)).map (· + 2)
             else if c1 = '}' ∧ c2 = '}' then
               (if d - 1 ≤ 0 then some 2 else (scanFrom rest (d - 1)).map (· + 2))
             else (scanFrom (c2 :: rest) d).map (· + 1)) := rfl
        rw [hform]
        by_cases h1 : c1 = '{' ∧ c2 = '{'
        · rw [if_pos h1]
          obtain ⟨hc1, hc2⟩ := h1
          subst hc1
          subst hc2
          rw [ih rest (d + 1) hr (fun n => by
            have := hnc (n + 2)
            rw [List.take_succ_cons, List.take_succ_cons] at this
            exact this)]
          rfl
        · rw [if_neg h1]
          by_cases h2 : c1 = '}' ∧ c2 = '}'
          · rw [if_pos h2]
            obtain ⟨hc1, hc2⟩ := h2
            subst hc1
            subst hc2
            have hd2 := hnc 2
            rw [show (('}' :: '}' :: rest).take 2) = ['}', '}'] from rfl] at hd2
            rw [show braceDepth ['}', '}'] d = d - 1 from rfl] at hd2
            rw [if_neg (by omega)]
            rw [ih rest (d - 1) hr (fun n => by
              have := hnc (n + 2)
              rw [List.take_succ_cons, List.take_succ_cons] at this
              exact this)]
            rfl
          · rw [if_neg h2]
            rw [ih (c2 :: rest) d hr2 (fun n => by
              cases n with
              | zero =>
                have := hnc 0
                simpa using this
              | succ n' =>
                have := hnc (n' + 2)
                rw [List.take_succ_cons, List.take_succ_cons] at this
                rw [List.take_succ_cons]
                rw [show braceDepth (c1 :: c2 :: rest.take n') d =
                    braceDepth (c2 :: rest.take n') d from by
                  show (if c1 = '{' ∧ c2 = '{' then braceDepth (rest.take n') (d + 1)
                    else if c1 = '}' ∧ c2 = '}' then braceDepth (rest.take n') (d - 1)
                    else braceDepth (c2 :: rest.take n') d) = braceDepth (c2 :: rest.take n') d
                  rw [if_neg h1, if_neg h2]] at this
                exact this)]
            rfl

theorem infoboxStartHere_shape {cs : List Char} (h : infoboxStartHere cs = true) :
    ∃ rest, cs = '{' :: '{' :: rest := by
  unfold infoboxStartHere at h
  split at h
  · rename_i rest
    exact ⟨rest, rfl⟩
  · exact absurd h (by simp)

theorem findInfoboxStart_spec :
    ∀ (cs : List Char) (i : Nat), findInfoboxStart cs = some i →
      infoboxStartHere (cs.drop i) = true := by
  intro cs
  induction cs with
  | nil =>
    intro i h
    simp [findInfoboxStart] at h
  | cons c rest ih =>
    intro i h
    unfold findInfoboxStart at h
    split at h
    · rename_i hstart
      injection h with h
      subst h
      simpa using hstart
    · obtain ⟨j, hj, hij⟩ := Option.map_eq_some'.mp h
      subst hij
      rw [List.drop_succ_cons]
      exact ih j hj

theorem braceDepth_no_brace :
    ∀ (fuel : Nat) (cs : List Char) (d : Int), cs.length ≤ fuel →
      (∀ ch ∈ cs, ch ≠ '{' ∧ ch ≠ '}') → braceDepth cs d = d := by
  intro fuel
  induction fuel with
  | zero =>
    intro cs d hlen _
    have hnil : cs = [] := List.length_eq_zero.mp (Nat.le_zero.mp hlen)
    subst hnil
    rfl
  | succ N ih =>
    intro cs d hlen hmem
    cases cs with
    | nil => rfl
    | cons c1 tl =>
      cases tl with
      | nil => rfl
      | cons c2 rest =>
        simp only [List.length_cons] at hlen
        have h1 : ¬ (c1 = '{' ∧ c2 = '{') := fun hc => (hmem c1 (by simp)).1 hc.1
        have h2 : ¬ (c1 = '}' ∧ c2 = '}') := fun hc => (hmem c1 (by simp)).2 hc.1
        rw [show braceDepth (c1 :: c2 :: rest) d =
            (if c1 = '{' ∧ c2 = '{' then braceDepth rest (d + 1)
             else if c1 = '}' ∧ c2 = '}' then braceDepth rest (d - 1)
             else braceDepth (c2 :: rest) d) from rfl]
        rw [if_neg h1, if_neg h2]
        refine ih (c2 :: rest) d (by simp only [List.length_cons]; omega) ?_
        intro ch hch
        exact hmem ch (List.mem_cons_of_mem c1 hch)

/-- C3: a nonempty result of extract_infobox starts at the template start
marker, opens with "{{" (depth 1 just inside), ends with the "}}" that
returns the depth to zero (depth 0 at the end offset); and when the braces
after the start marker never return to depth zero, the scan yields nothing
(the empty string) rather than a partial span. -/
theorem C3_balanced_span :
    (∀ (text : String) (span : String), extract_infobox text = span → span ≠ "" →
      ∃ start n, findInfoboxStart text.data = some start ∧
        span.data = (text.data.drop start).take n ∧
        span.data.take 2 = ['{', '{'] ∧
        braceDepth (span.data.take 2) 0 = 1 ∧
        braceDepth span.data 0 = 0 ∧
        ∃ pre, span.data = pre ++ ['}', '}']) ∧
    (∀ (text : String) (start : Nat) (rest : List Char),
      findInfoboxStart text.data = some start →
      text.data.drop start = '{' :: '{' :: rest →
      (∀ n : Nat, 1 ≤ braceDepth (rest.take n) 1) →
      extract_infobox text = "") := by
  constructor
  · intro text span hres hne
    unfold extract_infobox at hres
    cases hf : findInfoboxStart text.data with
    | none =>
      simp only [hf] at hres
      exact absurd hres.symm hne
    | some start =>
      simp only [hf] at hres
      cases hs : scanFrom (text.data.drop start) 0 with
      | none =>
        simp only [hs] at hres
        exact absurd hres.symm hne
      | some n =>
        simp only [hs] at hres
        obtain ⟨rest, hdrop⟩ := infoboxStartHere_shape (findInfoboxStart_spec _ _ hf)
        rw [hdrop] at hs
        rw [show scanFrom ('{' :: '{' :: rest) 0 = (scanFrom rest (0 + 1)).map (· + 2)
          from rfl] at hs
        obtain ⟨m, hm, hn⟩ := Option.map_eq_some'.mp hs
        obtain ⟨h2m, hbd, pre, hpre⟩ :=
          scanFrom_spec rest.length rest (0 + 1) m (le_refl _) (by norm_num) hm
        subst hn
        subst hres
        have hX : (text.data.drop start).take (m + 2) = '{' :: '{' :: rest.take m := by
          rw [hdrop]
          rfl
        refine ⟨start, m + 2, rfl, rfl, ?_, ?_, ?_, ?_⟩
        · show ((text.data.drop start).take (m + 2)).take 2 = ['{', '{']
          rw [hX]
          rfl
        · show braceDepth (((text.data.drop start).take (m + 2)).take 2) 0 = 1
          rw [hX]
          rfl
        · show braceDepth ((text.data.drop start).take (m + 2)) 0 = 0
          rw [hX]
          show braceDepth (rest.take m) (0 + 1) = 0
          exact hbd
        · refine ⟨'{' :: '{' :: pre, ?_⟩
          show (text.data.drop start).take (m + 2) = '{' :: '{' :: pre ++ ['}', '}']
          rw [hX, hpre]
          rfl
  · intro text start rest hf hdrop hnc
    have hnone : scanFrom (text.data.drop start) 0 = none := by
      rw [hdrop]
      show (scanFrom rest 1).map (· + 2) = none
      rw [scanFrom_none rest.length rest 1 (le_refl _) hnc]
      rfl
    unfold extract_infobox
    rw [hf]
    dsimp only
    rw [hnone]

/-- C3 witness: a concrete balanced template (with surrounding text) and a
concrete unterminated template. -/
theorem C3_balanced_span_witness :
    (∃ start n,
      findInfoboxStart ("x\x7b\x7bInfobox SCOTUS case |a=b\x7d\x7dy" : String).data =
        some start ∧
      (extract_infobox "x\x7b\x7bInfobox SCOTUS case |a=b\x7d\x7dy").data =
        (("x\x7b\x7bInfobox SCOTUS case |a=b\x7d\x7dy" : String).data.drop start).take n ∧
      (extract_infobox "x\x7b\x7bInfobox SCOTUS case |a=b\x7d\x7dy").data.take 2 = ['{', '{'] ∧
      braceDepth ((extract_infobox "x\x7b\x7bInfobox SCOTUS case |a=b\x7d\x7dy").data.take 2) 0 = 1 ∧
      braceDepth (extract_infobox "x\x7b\x7bInfobox SCOTUS case |a=b\x7d\x7dy").data 0 = 0 ∧
      ∃ pre, (extract_infobox "x\x7b\x7bInfobox SCOTUS case |a=b\x7d\x7dy").data =
        pre ++ ['}', '}']) ∧
    extract_infobox "\x7b\x7bInfobox SCOTUS case |x" = "" := by
  constructor
  · exact C3_balanced_span.1 "x\x7b\x7bInfobox SCOTUS case |a=b\x7d\x7dy"
      (extract_infobox "x\x7b\x7bInfobox SCOTUS case |a=b\x7d\x7dy") rfl (by decide)
  · refine C3_balanced_span.2 "\x7b\x7bInfobox SCOTUS case |x" 0
      "Infobox SCOTUS case |x".data (by decide) (by decide) ?_
    have hall : ∀ ch ∈ "Infobox SCOTUS case |x".data, ch ≠ '{' ∧ ch ≠ '}' := by decide
    intro n
    have h1 : braceDepth ("Infobox SCOTUS case |x".data.take n) 1 = 1 :=
      braceDepth_no_brace ("Infobox SCOTUS case |x".data.take n).length _ 1 (le_refl _)
        (fun ch hch => hall ch (List.take_subset n _ hch))
    omega
